import Mathlib

/-!
Shallow embedding of the excel2jsonTool export core
(src/ExcelExportTool/{worksheet_data,data_processing,excel_processing,exceptions,naming_config}.py)
and proofs about the frozen claims C1..C10.

Conventions of the embedding:
* Python strings are represented as lists of characters (PyStr).
* Spreadsheet cell values are the closed variant CellVal (None / int / float / str / bool);
  Python floats are modelled as rationals, which is exact for every float literal used here.
* Converted JSON values are JVal; Python dicts are insertion-ordered association lists,
  with dictInsert mirroring the update-in-place-or-append semantics of dict assignment.
* Fallible Python code is embedded in Except ExportErr; exception messages are modelled
  as structured reasons carrying the same data the Python f-strings interpolate.
-/

namespace Excel2Json

/-- A Python string, as a list of characters. -/
abbrev PyStr := List Char

/-- Shorthand turning a Lean string literal into the PyStr representation. -/
def pystr (s : String) : PyStr := s.data

/-- A raw spreadsheet cell value as handed over by the worksheet reader:
None, an int, a float (modelled as a rational), a text, or a bool. -/
inductive CellVal where
  | none
  | int (n : ℤ)
  | float (q : ℚ)
  | str (s : PyStr)
  | bool (b : Bool)
deriving DecidableEq, Repr

/-- A converted JSON value as produced by data_processing.convert_to_type and
written into the exported record objects.  Dicts are insertion-ordered
association lists (Python dict semantics). -/
inductive JVal where
  | null
  | int (n : ℤ)
  | float (q : ℚ)
  | str (s : PyStr)
  | bool (b : Bool)
  | list (xs : List JVal)
  | dict (xs : List (JVal × JVal))
deriving Repr

mutual

/-- Structural (Python ==) equality test on JSON values. -/
def jvalEqB : JVal → JVal → Bool
  | .null, .null => true
  | .int a, .int b => a = b
  | .float a, .float b => a = b
  | .str a, .str b => a = b
  | .bool a, .bool b => a = b
  | .list a, .list b => jlistEqB a b
  | .dict a, .dict b => jpairsEqB a b
  | _, _ => false

/-- Equality test on lists of JSON values. -/
def jlistEqB : List JVal → List JVal → Bool
  | [], [] => true
  | a :: as, b :: bs => jvalEqB a b && jlistEqB as bs
  | _, _ => false

/-- Equality test on association lists of JSON values. -/
def jpairsEqB : List (JVal × JVal) → List (JVal × JVal) → Bool
  | [], [] => true
  | (k, v) :: as, (k2, v2) :: bs => jvalEqB k k2 && jvalEqB v v2 && jpairsEqB as bs
  | _, _ => false

end

mutual

theorem jvalEqB_iff : ∀ a b : JVal, jvalEqB a b = true ↔ a = b
  | .null, .null => by simp [jvalEqB]
  | .int a, .int b => by simp [jvalEqB]
  | .float a, .float b => by simp [jvalEqB]
  | .str a, .str b => by simp [jvalEqB]
  | .bool a, .bool b => by simp [jvalEqB]
  | .list a, .list b => by
      simpa [jvalEqB] using jlistEqB_iff a b
  | .dict a, .dict b => by
      simpa [jvalEqB] using jpairsEqB_iff a b
  | .null, .int _ => by simp [jvalEqB]
  | .null, .float _ => by simp [jvalEqB]
  | .null, .str _ => by simp [jvalEqB]
  | .null, .bool _ => by simp [jvalEqB]
  | .null, .list _ => by simp [jvalEqB]
  | .null, .dict _ => by simp [jvalEqB]
  | .int _, .null => by simp [jvalEqB]
  | .int _, .float _ => by simp [jvalEqB]
  | .int _, .str _ => by simp [jvalEqB]
  | .int _, .bool _ => by simp [jvalEqB]
  | .int _, .list _ => by simp [jvalEqB]
  | .int _, .dict _ => by simp [jvalEqB]
  | .float _, .null => by simp [jvalEqB]
  | .float _, .int _ => by simp [jvalEqB]
  | .float _, .str _ => by simp [jvalEqB]
  | .float _, .bool _ => by simp [jvalEqB]
  | .float _, .list _ => by simp [jvalEqB]
  | .float _, .dict _ => by simp [jvalEqB]
  | .str _, .null => by simp [jvalEqB]
  | .str _, .int _ => by simp [jvalEqB]
  | .str _, .float _ => by simp [jvalEqB]
  | .str _, .bool _ => by simp [jvalEqB]
  | .str _, .list _ => by simp [jvalEqB]
  | .str _, .dict _ => by simp [jvalEqB]
  | .bool _, .null => by simp [jvalEqB]
  | .bool _, .int _ => by simp [jvalEqB]
  | .bool _, .float _ => by simp [jvalEqB]
  | .bool _, .str _ => by simp [jvalEqB]
  | .bool _, .list _ => by simp [jvalEqB]
  | .bool _, .dict _ => by simp [jvalEqB]
  | .list _, .null => by simp [jvalEqB]
  | .list _, .int _ => by simp [jvalEqB]
  | .list _, .float _ => by simp [jvalEqB]
  | .list _, .str _ => by simp [jvalEqB]
  | .list _, .bool _ => by simp [jvalEqB]
  | .list _, .dict _ => by simp [jvalEqB]
  | .dict _, .null => by simp [jvalEqB]
  | .dict _, .int _ => by simp [jvalEqB]
  | .dict _, .float _ => by simp [jvalEqB]
  | .dict _, .str _ => by simp [jvalEqB]
  | .dict _, .bool _ => by simp [jvalEqB]
  | .dict _, .list _ => by simp [jvalEqB]

theorem jlistEqB_iff : ∀ a b : List JVal, jlistEqB a b = true ↔ a = b
  | [], [] => by simp [jlistEqB]
  | a :: as, b :: bs => by
      simp [jlistEqB, jvalEqB_iff a b, jlistEqB_iff as bs]
  | [], _ :: _ => by simp [jlistEqB]
  | _ :: _, [] => by simp [jlistEqB]

theorem jpairsEqB_iff : ∀ a b : List (JVal × JVal), jpairsEqB a b = true ↔ a = b
  | [], [] => by simp [jpairsEqB]
  | (k, v) :: as, (k2, v2) :: bs => by
      simp [jpairsEqB, jvalEqB_iff k k2, jvalEqB_iff v v2, jpairsEqB_iff as bs,
        Bool.and_assoc, and_assoc]
  | [], _ :: _ => by simp [jpairsEqB]
  | _ :: _, [] => by simp [jpairsEqB]

end

instance : DecidableEq JVal := fun a b => decidable_of_iff _ (jvalEqB_iff a b)

/-! ## Python string and dict helpers -/

/-- Python default whitespace characters (str.strip / str.split level). -/
def pyIsSpace (c : Char) : Bool :=
  c = ' ' || c = '\t' || c = '\n' || c = '\r' || c = '\x0b' || c = '\x0c'

/-- Python str.strip(). -/
def pyStrip (s : PyStr) : PyStr :=
  ((s.dropWhile pyIsSpace).reverse.dropWhile pyIsSpace).reverse

/-- Python str.lower() (ASCII level, which covers every string compared by the tool). -/
def lowerStr (s : PyStr) : PyStr := s.map Char.toLower

/-- Python str.split(sep) for a single-character separator. -/
def splitOnCharGo (sep : Char) : List Char → List Char → List PyStr
  | [], acc => [acc.reverse]
  | c :: rest, acc =>
    if c = sep then acc.reverse :: splitOnCharGo sep rest []
    else splitOnCharGo sep rest (c :: acc)

/-- Python str.split(sep), one-character separator: "".split(sep) is [""] . -/
def splitOnChar (sep : Char) (s : PyStr) : List PyStr := splitOnCharGo sep s []

/-- Splitter for pySplitlines: a line break is one of CRLF, LF, CR. -/
def splitLinesGo : List Char → List Char → List PyStr
  | [], acc => [acc.reverse]
  | '\r' :: '\n' :: rest, acc => acc.reverse :: splitLinesGo rest []
  | '\r' :: rest, acc => acc.reverse :: splitLinesGo rest []
  | '\n' :: rest, acc => acc.reverse :: splitLinesGo rest []
  | c :: rest, acc => splitLinesGo rest (c :: acc)

/-- Python str.splitlines(): no trailing empty line for a trailing terminator,
and the empty string has no lines at all. -/
def pySplitlines (s : PyStr) : List PyStr :=
  if s = [] then []
  else
    let ps := splitLinesGo s []
    if ps.getLast? = some [] then ps.dropLast else ps

/-- Python s.split(c, 1): split at the first occurrence of the character, if any. -/
def splitFirstChar (sep : Char) : PyStr → Option (PyStr × PyStr)
  | [] => Option.none
  | c :: rest =>
    if c = sep then some ([], rest)
    else (splitFirstChar sep rest).map fun p => (c :: p.1, p.2)

/-- Boolean list-prefix test. -/
def isPrefixB : PyStr → PyStr → Bool
  | [], _ => true
  | _ :: _, [] => false
  | a :: as, b :: bs => a = b && isPrefixB as bs

/-- Python (pat in s): substring containment. -/
def containsSub (pat : PyStr) : PyStr → Bool
  | [] => isPrefixB pat []
  | c :: rest => isPrefixB pat (c :: rest) || containsSub pat rest

/-- Fuel-driven worker for replaceSub; the fuel starts at the string length,
which suffices because every replacement step consumes at least one character. -/
def replaceSubFuel (pat repl : PyStr) : ℕ → PyStr → PyStr
  | 0, s => s
  | _ + 1, [] => []
  | n + 1, c :: rest =>
    if pat ≠ [] ∧ isPrefixB pat (c :: rest) then
      repl ++ replaceSubFuel pat repl n ((c :: rest).drop pat.length)
    else
      c :: replaceSubFuel pat repl n rest

/-- Python str.replace(pat, repl) for a non-empty pattern (every pattern used by
the tool is non-empty; the empty pattern is returned unchanged). -/
def replaceSub (pat repl s : PyStr) : PyStr := replaceSubFuel pat repl s.length s

/-- The regex search r"\((.*)\)" used by _convert_list/_convert_dict: the text
between the first opening parenthesis and the last closing parenthesis after it. -/
def extractParen (s : PyStr) : Option PyStr :=
  match splitFirstChar '(' s with
  | Option.none => Option.none
  | some (_, afterOpen) =>
    let r2 := afterOpen.reverse.dropWhile (fun c => c ≠ ')')
    match r2 with
    | [] => Option.none
    | _ :: before => some before.reverse

/-- Python dict assignment d[k] = v on an insertion-ordered association list:
the first entry with an equal key keeps its position (and original key object)
and gets the new value; a fresh key is appended at the end. -/
def dictInsert {α β : Type} [DecidableEq α] : List (α × β) → α → β → List (α × β)
  | [], k, v => [(k, v)]
  | (k0, v0) :: rest, k, v =>
    if k0 = k then (k0, v) :: rest else (k0, v0) :: dictInsert rest k v

/-- Lookup in an insertion-ordered association list (first match). -/
def assocLookup {α β : Type} [DecidableEq α] : List (α × β) → α → Option β
  | [], _ => Option.none
  | (k0, v0) :: rest, k => if k0 = k then some v0 else assocLookup rest k

/-! ## Errors (exceptions.py, plus the RuntimeError/ValueError sites of worksheet_data.py
and data_processing.py).  Message payloads are modelled structurally: each constructor
carries exactly the data the corresponding Python f-string interpolates. -/

/-- Reasons of the HeaderFormatError messages raised in WorksheetData.__init__. -/
inductive HeaderReason where
  | missingOrEmpty (i : ℕ)
  | lengthMismatch (i : ℕ) (rowLen : ℕ) (nFields : ℕ)
  | emptyFieldRow
deriving DecidableEq, Repr

/-- Reasons of the RuntimeError messages raised around primary-key handling,
plus the builtin exceptions that escape uncaught: the AttributeError of
calling .replace on a non-string type cell, and the TypeError raised by
sorted() inside DuplicateFieldError.__init__ when the duplicated values mix
comparability classes. -/
inductive RuntimeReason where
  | compositeKeysEmpty (excelRow : ℕ)
  | compositeKeysNotInt (excelRow : ℕ)
  | compositeParse (excelRow : ℕ)
  | compositeRange (excelRow : ℕ)
  | primaryKeyNotInt (excelRow : ℕ)
  | attrError
  | sortedTypeErr
deriving DecidableEq, Repr

/-- Reasons of the ValueError/TypeError/AttributeError exceptions raised inside
the type-conversion layer (data_processing.py); all of them are caught by the
record builder, which logs and stores null. -/
inductive ConvReason where
  | emptyTypeDef
  | typeNotAString
  | unsupportedType (t : PyStr)
  | intParse (v : CellVal)
  | floatParse (v : CellVal)
  | unpack (t : PyStr)
  | wrappedElem (t : PyStr) (v : CellVal)
  | dictLineFail (line : PyStr)
deriving DecidableEq, Repr

/-- The export-error taxonomy of exceptions.py together with the RuntimeError
sites of worksheet_data.py. -/
inductive ExportErr where
  | duplicateField (dups : List CellVal)
  | invalidEnumName (name : PyStr) (row : ℤ)
  | duplicatePrimaryKey (key : ℤ) (rowA rowB : ℕ)
  | compositeKeyOverflow (combined : ℤ)
  | invalidFieldName (field : PyStr) (colIndex : ℕ) (sheet : PyStr)
  | headerFormat (sheet : PyStr) (reason : HeaderReason)
  | requiredMissing (field : PyStr) (excelRow : ℕ)
  | runtimeErr (reason : RuntimeReason)
  | convErr (reason : ConvReason)
deriving DecidableEq, Repr

/-! ## Python value coercions (the PRIMITIVE_TYPE_MAPPING converters) -/

/-- Parse a non-empty all-digit character list as a natural number. -/
def digitsToNat (ds : List Char) : Option ℕ :=
  if ds ≠ [] ∧ ds.all Char.isDigit then
    some (ds.foldl (fun acc c => 10 * acc + (c.toNat - 48)) 0)
  else Option.none

/-- Python int(s) on a string: surrounding whitespace and an optional sign
around a non-empty digit run (the digit-group underscores Python also accepts
never occur in the data this tool reads). -/
def pyIntOfStr (s : PyStr) : Except ConvReason ℤ :=
  let t := pyStrip s
  match t with
  | '-' :: ds =>
    match digitsToNat ds with
    | some n => .ok (-(n : ℤ))
    | Option.none => .error (.intParse (.str s))
  | '+' :: ds =>
    match digitsToNat ds with
    | some n => .ok (n : ℤ)
    | Option.none => .error (.intParse (.str s))
  | ds =>
    match digitsToNat ds with
    | some n => .ok (n : ℤ)
    | Option.none => .error (.intParse (.str s))

/-- Python float(s) on a string: optional sign, digits, optional decimal point
and fraction digits (exponent forms never occur in the data this tool reads). -/
def pyFloatOfStr (s : PyStr) : Except ConvReason ℚ :=
  let t := pyStrip s
  let signAndBody : ℚ × PyStr :=
    match t with
    | '-' :: ds => (-1, ds)
    | '+' :: ds => (1, ds)
    | ds => (1, ds)
  let sign := signAndBody.1
  let body := signAndBody.2
  match splitFirstChar '.' body with
  | Option.none =>
    match digitsToNat body with
    | some n => .ok (sign * (n : ℚ))
    | Option.none => .error (.floatParse (.str s))
  | some (ip, fp) =>
    if (ip ++ fp).all Char.isDigit ∧ ip ++ fp ≠ [] then
      let ipv : ℕ := (digitsToNat ip).getD 0
      let fpv : ℕ := (digitsToNat fp).getD 0
      .ok (sign * ((ipv : ℚ) + (fpv : ℚ) / ((10 : ℚ) ^ fp.length)))
    else .error (.floatParse (.str s))

/-- Decimal rendering of a rational standing in for a Python float; it matches
Python str() exactly on integral floats, the only floats these proofs touch. -/
def ratRepr (q : ℚ) : PyStr :=
  if q.den = 1 then (toString q.num).data ++ pystr ".0"
  else (toString q.num).data ++ '/' :: (toString q.den).data

/-- Python str(x) over the cell-value variant. -/
def pyStrOfVal : CellVal → PyStr
  | .none => pystr "None"
  | .int n => (toString n).data
  | .float q => ratRepr q
  | .str s => s
  | .bool b => if b then pystr "True" else pystr "False"

/-- Truncation of a rational toward zero (Python int() on a float). -/
def ratTrunc (q : ℚ) : ℤ := if q < 0 then -(Int.floor (-q)) else Int.floor q

/-- Python int(x) over the cell-value variant. -/
def pyInt : CellVal → Except ConvReason ℤ
  | .int n => .ok n
  | .bool b => .ok (if b then 1 else 0)
  | .float q => .ok (ratTrunc q)
  | .str s => pyIntOfStr s
  | .none => .error (.intParse .none)

/-- Python float(x) over the cell-value variant. -/
def pyFloat : CellVal → Except ConvReason ℚ
  | .int n => .ok (n : ℚ)
  | .bool b => .ok (if b then 1 else 0)
  | .float q => .ok q
  | .str s => pyFloatOfStr s
  | .none => .error (.floatParse .none)

/-- The bool converter of PRIMITIVE_TYPE_MAPPING:
lambda x. str(x).lower() in ("1", "true", "yes"). -/
def pyBoolConv (v : CellVal) : Bool :=
  let t := lowerStr (pyStrOfVal v)
  t = pystr "1" || t = pystr "true" || t = pystr "yes"

/-! ## data_processing.py: type grammar and conversion -/

/-- The keys of PRIMITIVE_TYPE_MAPPING. -/
def primitiveTypeNames : List PyStr :=
  [pystr "int", pystr "float", pystr "bool", pystr "str", pystr "string"]

/-- data_processing._convert_primitive: None maps to the empty string for
str/string and to converter(0) otherwise; non-None values go through the
raw converter of the primitive. -/
def convert_primitive (t : PyStr) (v : CellVal) : Except ConvReason JVal :=
  if t = pystr "int" then
    if v = .none then .ok (.int 0) else (pyInt v).map .int
  else if t = pystr "float" then
    if v = .none then .ok (.float 0) else (pyFloat v).map .float
  else if t = pystr "bool" then
    if v = .none then .ok (.bool (pyBoolConv (.int 0))) else .ok (.bool (pyBoolConv v))
  else if t = pystr "str" ∨ t = pystr "string" then
    if v = .none then .ok (.str []) else .ok (.str (pyStrOfVal v))
  else .error (.unsupportedType t)

/-- PRIMITIVE_TYPE_MAPPING.get(name, str): the element converter used by the
list/dict conversions; every name outside the mapping falls back to str. -/
def elemConvOf (name : PyStr) (v : CellVal) : Except ConvReason JVal :=
  if name = pystr "int" then (pyInt v).map .int
  else if name = pystr "float" then (pyFloat v).map .float
  else if name = pystr "bool" then .ok (.bool (pyBoolConv v))
  else .ok (.str (pyStrOfVal v))

/-- data_processing._convert_list on a type string such as list(int):
no parenthesized group or a None value yields the empty list; a string value is
split on commas, segments that are empty after stripping are skipped and the
remaining stripped segments go through the element converter; any other value
is wrapped as a single-element list (failures there raise a wrapping ValueError). -/
def convert_list (typeStr : PyStr) (value : CellVal) : Except ConvReason JVal :=
  match extractParen typeStr with
  | Option.none => .ok (.list [])
  | some inner =>
    if value = .none then .ok (.list [])
    else
      let elemName := pyStrip inner
      match value with
      | .str s =>
        (((splitOnChar ',' s).filter (fun seg => pyStrip seg ≠ [])).mapM
          (fun seg => elemConvOf elemName (.str (pyStrip seg)))).map .list
      | v =>
        match elemConvOf elemName v with
        | .ok x => .ok (.list [x])
        | .error _ => .error (.wrappedElem typeStr value)

/-- One line of data_processing._convert_dict: a line without a colon is
skipped; otherwise the line is split at the first colon, both halves are
stripped and converted, and the pair is written with dict-assignment semantics
(conversion failures raise a wrapping ValueError). -/
def processDictLine (kt vt : PyStr) (acc : List (JVal × JVal)) (line : PyStr) :
    Except ConvReason (List (JVal × JVal)) :=
  match splitFirstChar ':' line with
  | Option.none => .ok acc
  | some (k, v) =>
    match elemConvOf kt (.str (pyStrip k)), elemConvOf vt (.str (pyStrip v)) with
    | .ok kv, .ok vv => .ok (dictInsert acc kv vv)
    | _, _ => .error (.dictLineFail line)

/-- data_processing._convert_dict on a type string such as dict(int,string):
no parenthesized group or a None value yields the empty dict; the group must
split on the comma into exactly a key type and a value type; str(value) is then
split into lines and each line goes through processDictLine. -/
def convert_dict (typeStr : PyStr) (value : CellVal) : Except ConvReason JVal :=
  match extractParen typeStr with
  | Option.none => .ok (.dict [])
  | some inner =>
    if value = .none then .ok (.dict [])
    else
      match (splitOnChar ',' inner).map pyStrip with
      | [kt, vt] =>
        ((pySplitlines (pyStrOfVal value)).foldlM (processDictLine kt vt) []).map .dict
      | _ => .error (.unpack typeStr)

/-- data_processing._generic_custom_type_object: the structural fallback object
for an unregistered dotted type name. -/
def genericCustomTypeObject (fullName : PyStr) (raw : Option PyStr) : JVal :=
  match raw with
  | Option.none =>
    .dict [(.str (pystr "__type"), .str fullName), (.str (pystr "segments"), .list [])]
  | some r =>
    if r = [] then
      .dict [(.str (pystr "__type"), .str fullName), (.str (pystr "segments"), .list [])]
    else
      let txt := replaceSub (pystr "\r\n") (pystr "\n") r
      .dict [(.str (pystr "__type"), .str fullName),
             (.str (pystr "__raw"), .str txt),
             (.str (pystr "segments"),
              .list ((splitOnChar '#' txt).map (fun p => .str (pyStrip p))))]

/-- data_processing._parse_localized_string_ref, the one registered custom
type parser (Localization.LocalizedStringRef). -/
def parseLocalizedStringRef (raw : Option PyStr) : JVal :=
  let mkObj (src ctx : PyStr) : JVal :=
    .dict [(.str (pystr "keyHash"), .int 0),
           (.str (pystr "source"), .str src),
           (.str (pystr "context"), .str ctx)]
  match raw with
  | Option.none => mkObj [] []
  | some r =>
    if r = [] then mkObj [] []
    else
      let txt := replaceSub (pystr "\r\n") (pystr "\n") r
      match splitFirstChar '#' txt with
      | some (src, ctx) => mkObj (pyStrip src) (pyStrip ctx)
      | Option.none => mkObj (pyStrip txt) (pyStrip [])

/-- Membership test of the process-wide custom type registry, which holds the
single registration made at import time. -/
def customTypeRegistered (name : PyStr) : Bool :=
  name = pystr "Localization.LocalizedStringRef"

/-- data_processing.convert_to_type.  The type string comes straight from a
header cell, so a falsy cell raises the empty-type ValueError and a non-string
cell raises before the strip (both are caught and logged by the record
builder); a recognized primitive dispatches to convert_primitive, dict/list
name prefixes dispatch to the container conversions, a dotted name goes to the
registry or the generic fallback, and anything else is unsupported. -/
def convert_to_type (typeCell : CellVal) (value : CellVal) : Except ConvReason JVal :=
  match typeCell with
  | .str s =>
    if s = [] then .error .emptyTypeDef
    else
      let t := pyStrip s
      if primitiveTypeNames.contains t then convert_primitive t value
      else if isPrefixB (pystr "dict") t then convert_dict t value
      else if isPrefixB (pystr "list") t then convert_list t value
      else if containsSub (pystr ".") t then
        if customTypeRegistered t then
          .ok (parseLocalizedStringRef
            (match value with | .none => Option.none | v => some (pyStrOfVal v)))
        else
          .ok (genericCustomTypeObject t
            (match value with | .none => Option.none | v => some (pyStrOfVal v)))
      else .error (.unsupportedType t)
  | .none => .error .emptyTypeDef
  | .int n => if n = 0 then .error .emptyTypeDef else .error .typeNotAString
  | .float q => if q = 0 then .error .emptyTypeDef else .error .typeNotAString
  | .bool b => if b then .error .typeNotAString else .error .emptyTypeDef

/-! ## Identifier checks and the duplicate-field check -/

/-- Shape part of the C# identifier regex: a letter or underscore followed by
letters, digits or underscores. -/
def identShape : PyStr → Bool
  | [] => false
  | c :: rest =>
    (c.isAlpha || c = '_') && rest.all (fun d => d.isAlpha || d.isDigit || d = '_')

/-- The reserved-word list _C_SHARP_KEYWORDS of data_processing.py. -/
def csKeywords : List PyStr :=
  ([ "abstract", "as", "base", "bool", "break", "byte", "case", "catch", "char",
     "checked", "class", "const", "continue", "decimal", "default", "delegate",
     "do", "double", "else", "enum", "event", "explicit", "extern", "false",
     "finally", "fixed", "float", "for", "foreach", "goto", "if", "implicit",
     "in", "int", "interface", "internal", "is", "lock", "long", "namespace",
     "new", "null", "object", "operator", "out", "override", "params",
     "private", "protected", "public", "readonly", "ref", "return", "sbyte",
     "sealed", "short", "sizeof", "stackalloc", "static", "string", "struct",
     "switch", "this", "throw", "true", "try", "typeof", "uint", "ulong",
     "unchecked", "unsafe", "ushort", "using", "virtual", "void", "volatile",
     "while" ] : List String).map pystr

/-- data_processing.is_valid_csharp_identifier. -/
def is_valid_csharp_identifier (s : PyStr) : Bool :=
  identShape s && decide (s ∉ csKeywords)

/-- data_processing.available_csharp_enum_name: the identifier-shape regex
applied to str(name); keywords are not excluded here. -/
def available_csharp_enum_name (v : CellVal) : Bool :=
  identShape (pyStrOfVal v)

/-- The comparison key of Python equality on cell values: booleans and
numbers compare numerically (True == 1 == 1.0), strings by content and None
only to itself.  Counter groups cells by this key. -/
inductive PyKey where
  | num (q : ℚ)
  | txt (s : PyStr)
  | noneKey
deriving DecidableEq, Repr

/-- The Python-equality key of a cell value. -/
def pyKey : CellVal → PyKey
  | .none => .noneKey
  | .int a => .num (a : ℚ)
  | .float q => .num q
  | .bool b => .num (if b then 1 else 0)
  | .str s => .txt s

/-- Python == on cell values. -/
def pyEqB (a b : CellVal) : Bool := pyKey a == pyKey b

/-- One step of collections.Counter: bump the count of the first entry whose
key is Python-equal to the value (keeping the first-seen representative), or
append a fresh entry. -/
def pyCountInsert : List (CellVal × ℕ) → CellVal → List (CellVal × ℕ)
  | [], v => [(v, 1)]
  | (k, c) :: rest, v =>
    if pyEqB k v then (k, c + 1) :: rest else (k, c) :: pyCountInsert rest v

/-- collections.Counter(values): insertion-ordered counts grouped by Python
equality. -/
def pyCounter (values : List CellVal) : List (CellVal × ℕ) :=
  values.foldl pyCountInsert []

/-- The values Python sorts numerically: ints, floats and bools. -/
def cellIsNum : CellVal → Bool
  | .int _ => true
  | .float _ => true
  | .bool _ => true
  | _ => false

/-- The values Python sorts lexicographically: strings. -/
def cellIsTxt : CellVal → Bool
  | .str _ => true
  | _ => false

/-- Python string < : lexicographic comparison by code point. -/
def lexLtB : PyStr → PyStr → Bool
  | [], [] => false
  | [], _ :: _ => true
  | _ :: _, [] => false
  | c :: cs, d :: ds =>
    if c.toNat < d.toNat then true
    else if c.toNat = d.toNat then lexLtB cs ds
    else false

/-- The numeric value Python compares ints, floats and bools by. -/
def cellRatVal : CellVal → ℚ
  | .int a => (a : ℚ)
  | .float q => q
  | .bool b => if b then 1 else 0
  | _ => 0

/-- Python < on cell values of one comparability class. -/
def pyLtB (a b : CellVal) : Bool :=
  if cellIsNum a ∧ cellIsNum b then decide (cellRatVal a < cellRatVal b)
  else
    match a, b with
    | .str s, .str t => lexLtB s t
    | _, _ => false

/-- Ascending insertion into a sorted list. -/
def insertSorted (v : CellVal) : List CellVal → List CellVal
  | [] => [v]
  | x :: xs => if pyLtB v x then v :: x :: xs else x :: insertSorted v xs

/-- sorted(...) on a collection of pairwise non-equal cells of one
comparability class: the unique ascending ordering, so the unspecified
iteration order of the duplicate set is immaterial. -/
def sortCells (l : List CellVal) : List CellVal := l.foldr insertSorted []

/-- sorted(...) completes without TypeError: at most one element, or all
elements numeric, or all elements strings; any cross-class pair (None
compares with nothing, not even with None) raises TypeError at the first
comparison. -/
def pySortOk (l : List CellVal) : Bool :=
  l.length ≤ 1 || l.all cellIsNum || l.all cellIsTxt

/-- The duplicate set of check_repeating_values: the first-seen
representative of every Python-equality class occurring more than once, in
first-occurrence order. -/
def repeatedVals (values : List CellVal) : List CellVal :=
  ((pyCounter values).filter (fun kc => 1 < kc.2)).map Prod.fst

/-- excel_processing.check_repeating_values: Counter(values) grouped by
Python equality over the full (unfiltered) list; any repeated value raises
DuplicateFieldError, whose constructor interpolates sorted(fields) -- so
when the duplicate set mixes comparability classes the sorted() call itself
escapes with TypeError instead. -/
def check_repeating_values (values : List CellVal) : Except ExportErr Unit :=
  if repeatedVals values = [] then .ok ()
  else if pySortOk (repeatedVals values) then
    .error (.duplicateField (sortCells (repeatedVals values)))
  else .error (.runtimeErr .sortedTypeErr)

/-! ## worksheet_data.py: the field-name tag mini-language

KEY1_PREFIX_RE and KEY2_PREFIX_RE anchor at the start, are case-insensitive,
and capture everything after the colon as the name group, which every use site
strips.  The regex dot does not cross newlines, so a match additionally needs
the stripped name part to be newline-free; the helpers below encode exactly
that match condition and directly return the stripped name group. -/

/-- Match condition for the name part of key1:/key2: (the tail after the colon):
the regex backslash-s star dot-plus backslash-s star dollar combination
succeeds iff some non-newline character exists and the stripped core carries
no newline. -/
def keyTagNameOk (rest : PyStr) : Bool :=
  rest.any (fun c => c ≠ '\n') && !((pyStrip rest).contains '\n')

/-- KEY1_PREFIX_RE/KEY2_PREFIX_RE applied to a field name, returning the
stripped real name on a match (tag is the literal key1 or key2). -/
def matchKeyTag (tag : PyStr) (s : PyStr) : Option PyStr :=
  let s1 := s.dropWhile pyIsSpace
  if lowerStr (s1.take tag.length) = lowerStr tag then
    match (s1.drop tag.length).dropWhile pyIsSpace with
    | ':' :: rest => if keyTagNameOk rest then some (pyStrip rest) else Option.none
    | _ => Option.none
  else Option.none

/-- Match condition for the name group of REF_PREFIX_RE after the closing
bracket: dollar may sit before one final newline, everything before the
newline-free non-empty name must be whitespace. -/
def refNameOk (rest : PyStr) : Bool :=
  let r1 := if rest.getLast? = some '\n' then rest.dropLast else rest
  let sufRev := r1.reverse.takeWhile (fun c => c ≠ '\n')
  sufRev ≠ [] && (r1.take (r1.length - sufRev.length)).all pyIsSpace

/-- REF_PREFIX_RE applied to a field name: an optional leading whitespace run,
a bracketed Sheet or Sheet/Field tag and a non-empty remainder.  Returns the
raw sheet group, the raw optional field group and the stripped name group. -/
def matchRefTag (s : PyStr) : Option (PyStr × Option PyStr × PyStr) :=
  match s.dropWhile pyIsSpace with
  | '[' :: r1 =>
    let sheet := r1.takeWhile (fun c => decide (c ≠ '/' ∧ c ≠ ']'))
    if sheet = [] then Option.none
    else
      match r1.drop sheet.length with
      | '/' :: r2 =>
        let field := r2.takeWhile (fun c => decide (c ≠ ']'))
        if field = [] then Option.none
        else
          match r2.drop field.length with
          | ']' :: rest =>
            if refNameOk rest then some (sheet, some field, pyStrip rest) else Option.none
          | _ => Option.none
      | ']' :: rest =>
        if refNameOk rest then some (sheet, Option.none, pyStrip rest) else Option.none
      | _ => Option.none
  | _ => Option.none

/-- WorksheetData._actual_field_name: strip a key1:/key2:/reference prefix, or
stringify a non-string cell. -/
def actualFieldName (fieldNames : List CellVal) (i : ℕ) : PyStr :=
  match fieldNames.getD i .none with
  | .str raw =>
    match matchKeyTag (pystr "key1") raw with
    | some name => name
    | Option.none =>
      match matchKeyTag (pystr "key2") raw with
      | some name => name
      | Option.none =>
        match matchRefTag raw with
        | some (_, _, name) => name
        | Option.none => raw
  | v => pyStrOfVal v

/-- WorksheetData._convert_to_csharp_type: textual replacements
list to List, dict to Dictionary, then parentheses to angle brackets. -/
def convertToCsType (s : PyStr) : PyStr :=
  replaceSub (pystr ")") (pystr ">")
    (replaceSub (pystr "(") (pystr "<")
      (replaceSub (pystr "dict") (pystr "Dictionary")
        (replaceSub (pystr "list") (pystr "List") s)))

/-- The C# type of a type cell; a non-string cell raises AttributeError on
the .replace call, which WorksheetData.__init__ does not catch. -/
def csharpTypeOf : CellVal → Except ExportErr PyStr
  | .str s => .ok (convertToCsType s)
  | _ => .error (.runtimeErr .attrError)

/-- The base_norm helper of WorksheetData._parse_type_annotation. -/
def baseNorm (s : PyStr) : PyStr :=
  let t := lowerStr (pyStrip s)
  if t = pystr "int" ∨ t = pystr "int32" ∨ t = pystr "integer" then pystr "int"
  else if t = pystr "float" ∨ t = pystr "double" then pystr "float"
  else if t = pystr "str" ∨ t = pystr "string" then pystr "string"
  else if t = pystr "bool" ∨ t = pystr "boolean" then pystr "bool"
  else t

/-- WorksheetData._parse_type_annotation: kind (list / dict / scalar) plus the
normalized base type.  Non-string type cells cannot reach this call site
because schema build already fails on them, but the or-empty-string guard of
the source is kept for falsy cells. -/
def parseTypeAnno (typeCell : CellVal) : PyStr × Option PyStr :=
  let raw : PyStr :=
    match typeCell with
    | .str s => s
    | .none => []
    | v => pyStrOfVal v
  let t := lowerStr (pyStrip raw)
  if isPrefixB (pystr "list(") t ∧ t.getLast? = some ')' then
    (pystr "list", some (baseNorm ((t.drop 5).dropLast)))
  else if isPrefixB (pystr "dict(") t ∧ t.getLast? = some ')' then
    (pystr "dict", Option.none)
  else
    (pystr "scalar", some (baseNorm t))

/-- WorksheetData._value_type_ok. -/
def valueTypeOk (base : PyStr) (v : JVal) : Bool :=
  match v with
  | .null => false
  | _ =>
    if base = pystr "int" then (match v with | .int _ => true | _ => false)
    else if base = pystr "float" then
      (match v with | .int _ => true | .float _ => true | _ => false)
    else if base = pystr "string" then (match v with | .str _ => true | _ => false)
    else if base = pystr "bool" then (match v with | .bool _ => true | _ => false)
    else true

/-! ## worksheet_data.py: schema build (WorksheetData.__init__) -/

/-- The six header rows (worksheet rows 1 to 6) as read by read_cell_values. -/
structure HeaderRows where
  remarks : List CellVal
  headers : List CellVal
  dataTypes : List CellVal
  dataLabels : List CellVal
  fieldNames : List CellVal
  defaultValues : List CellVal
deriving DecidableEq, Repr

/-- The _align_list helper: pad with None or truncate to the field-column
count (a warning-only step; after the strict length checks it never changes
anything). -/
def alignList (lst : List CellVal) (target : ℕ) : List CellVal :=
  if lst.length = target then lst
  else if lst.length < target then lst ++ List.replicate (target - lst.length) CellVal.none
  else lst.take target

/-- The strict header checks of WorksheetData.__init__ (lines 71-99): each of
the six rows must be non-empty, then each row length must equal the
field-name row length; afterwards the rows are aligned (a no-op by then). -/
def headerStage (name : PyStr) (h : HeaderRows) : Except ExportErr HeaderRows :=
  if h.remarks = [] then .error (.headerFormat name (.missingOrEmpty 1))
  else if h.headers = [] then .error (.headerFormat name (.missingOrEmpty 2))
  else if h.dataTypes = [] then .error (.headerFormat name (.missingOrEmpty 3))
  else if h.dataLabels = [] then .error (.headerFormat name (.missingOrEmpty 4))
  else if h.fieldNames = [] then .error (.headerFormat name (.missingOrEmpty 5))
  else if h.defaultValues = [] then .error (.headerFormat name (.missingOrEmpty 6))
  else
    let n := h.fieldNames.length
    if n = 0 then .error (.headerFormat name .emptyFieldRow)
    else if h.remarks.length ≠ n then
      .error (.headerFormat name (.lengthMismatch 1 h.remarks.length n))
    else if h.headers.length ≠ n then
      .error (.headerFormat name (.lengthMismatch 2 h.headers.length n))
    else if h.dataTypes.length ≠ n then
      .error (.headerFormat name (.lengthMismatch 3 h.dataTypes.length n))
    else if h.dataLabels.length ≠ n then
      .error (.headerFormat name (.lengthMismatch 4 h.dataLabels.length n))
    else if h.fieldNames.length ≠ n then
      .error (.headerFormat name (.lengthMismatch 5 h.fieldNames.length n))
    else if h.defaultValues.length ≠ n then
      .error (.headerFormat name (.lengthMismatch 6 h.defaultValues.length n))
    else
      .ok ⟨alignList h.remarks n, alignList h.headers n, alignList h.dataTypes n,
           alignList h.dataLabels n, alignList h.fieldNames n, alignList h.defaultValues n⟩

/-- WorksheetData._iter_effective_field_indices: every column index i with
i greater than zero whose label is not ignore. -/
def effectiveIndices (fieldNames dataLabels : List CellVal) : List ℕ :=
  (List.range fieldNames.length).filter
    (fun i => decide (0 < i ∧ dataLabels.getD i .none ≠ .str (pystr "ignore")))

/-- Worker of WorksheetData._get_properties_dict: fold the effective columns
into an insertion-ordered dict from actual field name to C# type. -/
def propsGo (fieldNames dataTypes : List CellVal) :
    List ℕ → List (PyStr × PyStr) → Except ExportErr (List (PyStr × PyStr))
  | [], acc => .ok acc
  | i :: rest, acc =>
    match csharpTypeOf (dataTypes.getD i .none) with
    | .error e => .error e
    | .ok t => propsGo fieldNames dataTypes rest (dictInsert acc (actualFieldName fieldNames i) t)

/-- WorksheetData._get_properties_dict. -/
def propertiesDict (fieldNames dataTypes dataLabels : List CellVal) :
    Except ExportErr (List (PyStr × PyStr)) :=
  propsGo fieldNames dataTypes (effectiveIndices fieldNames dataLabels) []

/-- WorksheetData._need_generate_keys: the first value of the properties dict
equals the literal string type name. -/
def needGenerateKeysOf (fieldNames dataTypes dataLabels : List CellVal) :
    Except ExportErr Bool :=
  match propertiesDict fieldNames dataTypes dataLabels with
  | .error e => .error e
  | .ok pd => .ok (decide (pd.head?.map Prod.snd = some (pystr "string")))

/-- The composite-key parameters of WorksheetData: MAX_KEY2 bounds each key
component and also serves as the multiplier. -/
def MAX_KEY2 : ℤ := 46340

/-- MULTIPLIER = MAX_KEY2. -/
def MULTIPLIER : ℤ := MAX_KEY2

/-- WorksheetData._detect_composite_keys_with_prefixes_in_first_two_columns:
needs more than two columns, string field names at indices 1 and 2 matching
the key1:/key2: tags, string type cells at indices 1 and 2 whose
stripped-lowered text contains int, and non-empty real names; returns the flag
together with the composite_key_fields entries. -/
def detectComposite (fieldNames dataTypes : List CellVal) :
    Bool × List (PyStr × PyStr) :=
  if fieldNames.length ≤ 2 then (false, [])
  else
    match fieldNames.getD 1 .none, fieldNames.getD 2 .none with
    | .str f1, .str f2 =>
      match matchKeyTag (pystr "key1") f1, matchKeyTag (pystr "key2") f2 with
      | some real1, some real2 =>
        match dataTypes.getD 1 .none, dataTypes.getD 2 .none with
        | .str dt1, .str dt2 =>
          if containsSub (pystr "int") (lowerStr (pyStrip dt1))
              ∧ containsSub (pystr "int") (lowerStr (pyStrip dt2)) then
            if real1 ≠ [] ∧ real2 ≠ [] then
              (true, [(pystr "key1", real1), (pystr "key2", real2)])
            else (false, [])
          else (false, [])
        | _, _ => (false, [])
      | _, _ => (false, [])
    | _, _ => (false, [])

/-- Validation-and-collection loop of WorksheetData._check_duplicate_enum_keys:
skip empty rows, fail on the first illegal enum name, collect (value, row). -/
def enumKeysGo : List (List CellVal) → ℕ → List (CellVal × ℕ) →
    Except ExportErr (List (CellVal × ℕ))
  | [], _, acc => .ok acc
  | row :: rest, idx, acc =>
    if row = [] then enumKeysGo rest (idx + 1) acc
    else
      let val := row.headD .none
      if available_csharp_enum_name val then
        enumKeysGo rest (idx + 1) (acc ++ [(val, 7 + idx)])
      else .error (.invalidEnumName (pyStrOfVal val) (7 + idx : ℤ))

/-- WorksheetData._check_duplicate_enum_keys: validate every first-column
value and fail when any value appears in more than one row (the Python
message additionally lists the duplicated names and rows). -/
def checkDuplicateEnumKeys (rowData : List (List CellVal)) : Except ExportErr Unit :=
  match enumKeysGo rowData 0 [] with
  | .error e => .error e
  | .ok entries =>
    if (entries.map Prod.fst).any (fun v => 1 < (entries.map Prod.fst).count v) then
      .error (.invalidEnumName (pystr "duplicate string primary keys") (-1))
    else .ok ()

/-- WorksheetData._check_duplicate_composite_keys: rows shorter than two cells
are skipped, empty or non-integer key cells are fatal, and an already-seen
combined key raises DuplicatePrimaryKeyError with both row positions. -/
def compositeDupGo : List (List CellVal) → ℕ → List (ℤ × ℕ) → Except ExportErr Unit
  | [], _, _ => .ok ()
  | row :: rest, idx, seen =>
    if row.length < 2 then compositeDupGo rest (idx + 1) seen
    else
      let k1 := row.getD 0 .none
      let k2 := row.getD 1 .none
      let excelRow := 7 + idx
      if k1 = .none ∨ k2 = .none then .error (.runtimeErr (.compositeKeysEmpty excelRow))
      else
        match pyInt k1, pyInt k2 with
        | .ok i1, .ok i2 =>
          let combined := i1 * MULTIPLIER + i2
          match assocLookup seen combined with
          | some firstRow => .error (.duplicatePrimaryKey combined firstRow excelRow)
          | Option.none => compositeDupGo rest (idx + 1) (seen ++ [(combined, excelRow)])
        | _, _ => .error (.runtimeErr (.compositeKeysNotInt excelRow))

/-- WorksheetData._check_duplicate_composite_keys, entry point. -/
def checkDuplicateCompositeKeys (rowData : List (List CellVal)) : Except ExportErr Unit :=
  compositeDupGo rowData 0 []

/-- The reference-prefix collection loop of WorksheetData.__init__:
(column index, stripped sheet, optionally stripped field). -/
def collectRefSpecs (fieldNames dataLabels : List CellVal) :
    List (ℕ × PyStr × Option PyStr) :=
  (List.range fieldNames.length).filterMap fun i =>
    if i = 0 then Option.none
    else if dataLabels.getD i .none = .str (pystr "ignore") then Option.none
    else
      match fieldNames.getD i .none with
      | .str raw =>
        match matchRefTag raw with
        | some (sheet, field, _) => some (i, pyStrip sheet, field.map pyStrip)
        | Option.none => Option.none
      | _ => Option.none

/-- The field-naming validity loop of WorksheetData.__init__: every non-key,
non-ignored, string-named column must have a legal C# identifier as actual
name; the first violation is fatal. -/
def checkFieldNamesGo (name : PyStr) (fieldNames dataLabels : List CellVal) :
    List ℕ → Except ExportErr Unit
  | [] => .ok ()
  | i :: rest =>
    if i = 0 then checkFieldNamesGo name fieldNames dataLabels rest
    else if dataLabels.getD i .none = .str (pystr "ignore") then
      checkFieldNamesGo name fieldNames dataLabels rest
    else
      match fieldNames.getD i .none with
      | .str _ =>
        let actual := actualFieldName fieldNames i
        if is_valid_csharp_identifier actual then
          checkFieldNamesGo name fieldNames dataLabels rest
        else .error (.invalidFieldName actual i name)
      | _ => checkFieldNamesGo name fieldNames dataLabels rest

/-- The field-naming validity check over all columns. -/
def checkFieldNames (name : PyStr) (fieldNames dataLabels : List CellVal) :
    Except ExportErr Unit :=
  checkFieldNamesGo name fieldNames dataLabels (List.range fieldNames.length)

/-- The schema object produced by WorksheetData.__init__. -/
structure Worksheet where
  name : PyStr
  remarks : List CellVal
  headers : List CellVal
  dataTypes : List CellVal
  dataLabels : List CellVal
  fieldNames : List CellVal
  defaultValues : List CellVal
  rowData : List (List CellVal)
  needGenerateKeys : Bool
  compositeKeys : Bool
  compositeKeyFields : List (PyStr × PyStr)
  refSpecs : List (ℕ × PyStr × Option PyStr)
deriving DecidableEq, Repr

/-- The part of WorksheetData.__init__ after the header checks: duplicate-field
check, key-policy detection, policy-specific load-time validation,
reference-tag collection and field-name validation, in source order.
Logging-only steps (statistics, effective-data notice) have no observable
effect and are omitted. -/
def schemaStage2 (name : PyStr) (ha : HeaderRows) (rowData : List (List CellVal)) :
    Except ExportErr Worksheet :=
  match check_repeating_values ha.fieldNames with
  | .error e => .error e
  | .ok _ =>
    match needGenerateKeysOf ha.fieldNames ha.dataTypes ha.dataLabels with
    | .error e => .error e
    | .ok ngk =>
      let comp := detectComposite ha.fieldNames ha.dataTypes
      match (if ngk then checkDuplicateEnumKeys rowData else .ok ()) with
      | .error e => .error e
      | .ok _ =>
        match (if comp.1 then checkDuplicateCompositeKeys rowData else .ok ()) with
        | .error e => .error e
        | .ok _ =>
          let specs := collectRefSpecs ha.fieldNames ha.dataLabels
          match checkFieldNames name ha.fieldNames ha.dataLabels with
          | .error e => .error e
          | .ok _ =>
            .ok ⟨name, ha.remarks, ha.headers, ha.dataTypes, ha.dataLabels, ha.fieldNames,
                 ha.defaultValues, rowData, ngk, comp.1, comp.2, specs⟩

/-- WorksheetData.__init__: the strict header stage followed by the rest of
the schema build. -/
def mkWorksheet (name : PyStr) (h : HeaderRows) (rowData : List (List CellVal)) :
    Except ExportErr Worksheet :=
  match headerStage name h with
  | .error e => .error e
  | .ok ha => schemaStage2 name ha rowData

/-! ## naming_config.py -/

/-- naming_config.JSON_ID_FIRST (default True): place the id entry first. -/
def JSON_ID_FIRST : Bool := true

/-- naming_config.REFERENCE_ALLOW_EMPTY_INT_VALUES. -/
def REFERENCE_ALLOW_EMPTY_INT_VALUES : List ℤ := [0]

/-- naming_config.REFERENCE_ALLOW_EMPTY_STRING_VALUES. -/
def REFERENCE_ALLOW_EMPTY_STRING_VALUES : List PyStr := [[]]

/-! ## worksheet_data.py: record building (WorksheetData.generate_json)

A record is an insertion-ordered association list from actual field name to
converted value; the exported document maps each derived key to its record.
The JSON serialization, size warnings and file writing are plumbing outside
the modelled core; reference-item collection is modelled as the input of
runReferenceChecks below. -/

/-- The three primary-key strategies of the docstring of WorksheetData. -/
inductive KeyPolicy where
  | stringEnum
  | compositeInt
  | singleInt
deriving DecidableEq, Repr

/-- The strategy actually driving generate_json, in its dispatch order:
need_generate_keys first, composite_keys second, single int key otherwise. -/
def keyPolicyOf (ws : Worksheet) : KeyPolicy :=
  if ws.needGenerateKeys then .stringEnum
  else if ws.compositeKeys then .compositeInt
  else .singleInt

/-- The composite-key branch of generate_json for one row: parse both key
cells as ints (any failure, including a missing second cell, is the parse
RuntimeError), enforce the half-open range bounds, combine, and raise
CompositeKeyOverflowError past 2 to the 31st. -/
def compositeKeyOfRow (row : List CellVal) (excelRow : ℕ) : Except ExportErr ℤ :=
  match row.get? 0, row.get? 1 with
  | some c1, some c2 =>
    match pyInt c1, pyInt c2 with
    | .ok k1, .ok k2 =>
      if 0 ≤ k1 ∧ k1 < MAX_KEY2 ∧ 0 ≤ k2 ∧ k2 < MAX_KEY2 then
        let rowKey := k1 * MULTIPLIER + k2
        if rowKey ≥ 2 ^ 31 then .error (.compositeKeyOverflow rowKey)
        else .ok rowKey
      else .error (.runtimeErr (.compositeRange excelRow))
    | _, _ => .error (.runtimeErr (.compositeParse excelRow))
  | _, _ => .error (.runtimeErr (.compositeParse excelRow))

/-- The single-int-key branch of generate_json for one row. -/
def singleKeyOfRow (row : List CellVal) (excelRow : ℕ) : Except ExportErr ℤ :=
  match row.get? 0 with
  | some c =>
    match pyInt c with
    | .ok k => .ok k
    | .error _ => .error (.runtimeErr (.primaryKeyNotInt excelRow))
  | Option.none => .error (.runtimeErr (.primaryKeyNotInt excelRow))

/-- One cell of the per-column loop of generate_json: an empty cell with no
default on a required column is the fatal required-field RuntimeError; an
empty cell otherwise converts the default, a non-empty cell converts the cell,
and in both cases a conversion failure is logged and null is stored. -/
def processCell (ws : Worksheet) (ci : ℕ) (excelRow : ℕ) (cell : CellVal) :
    Except ExportErr JVal :=
  let typeCell := ws.dataTypes.getD ci .none
  let dflt := ws.defaultValues.getD ci .none
  if cell = .none then
    if dflt = .none ∧ ws.dataLabels.getD ci .none = .str (pystr "required") then
      .error (.requiredMissing (actualFieldName ws.fieldNames ci) excelRow)
    else
      .ok (match convert_to_type typeCell dflt with
           | .ok v => v
           | .error _ => JVal.null)
  else
    .ok (match convert_to_type typeCell cell with
         | .ok v => v
         | .error _ => JVal.null)

/-- The per-column loop of generate_json over one data row (column index ci
tracks enumerate(row, start=1)): indices beyond the field-name row and ignored
columns are skipped; every other cell value is stored under the actual field
name with dict-assignment semantics. -/
def buildCols (ws : Worksheet) (excelRow : ℕ) :
    ℕ → List CellVal → List (PyStr × JVal) → Except ExportErr (List (PyStr × JVal))
  | _, [], obj => .ok obj
  | ci, cell :: rest, obj =>
    if ws.fieldNames.length ≤ ci then buildCols ws excelRow (ci + 1) rest obj
    else if ws.dataLabels.getD ci .none = .str (pystr "ignore") then
      buildCols ws excelRow (ci + 1) rest obj
    else
      match processCell ws ci excelRow cell with
      | .error e => .error e
      | .ok v =>
        buildCols ws excelRow (ci + 1) rest
          (dictInsert obj (actualFieldName ws.fieldNames ci) v)

/-- The primary-key dispatch of generate_json for one non-empty row, in
source order: the generated serial key when need_generate_keys holds, the
composite derivation when composite_keys holds, the single int key otherwise. -/
def rowKeySel (ws : Worksheet) (row : List CellVal) (excelRow : ℕ) (serial : ℕ) :
    Except ExportErr ℤ :=
  if ws.needGenerateKeys then .ok (serial : ℤ)
  else if ws.compositeKeys then compositeKeyOfRow row excelRow
  else singleKeyOfRow row excelRow

/-- The main loop of generate_json: skip empty rows, derive the key per the
policy dispatch order, reject an already-used key with
DuplicatePrimaryKeyError(key, first row, current row), build the record with
the id entry first or last per the configuration, and store it under the key. -/
def genRows (ws : Worksheet) (idFirst : Bool) :
    List (List CellVal) → ℕ → ℕ → List (ℤ × ℕ) → List (ℤ × List (PyStr × JVal)) →
    Except ExportErr (List (ℤ × List (PyStr × JVal)))
  | [], _, _, _, acc => .ok acc
  | row :: rest, rowIdx, serial, used, acc =>
    if row = [] then genRows ws idFirst rest (rowIdx + 1) serial used acc
    else
      let excelRow := 7 + rowIdx
      let keyAndSerial : Except ExportErr ℤ × ℕ :=
        (rowKeySel ws row excelRow serial,
         if ws.needGenerateKeys then serial + 1 else serial)
      match keyAndSerial.1 with
      | .error e => .error e
      | .ok rowKey =>
        match assocLookup used rowKey with
        | some firstRow => .error (.duplicatePrimaryKey rowKey firstRow excelRow)
        | Option.none =>
          let base : List (PyStr × JVal) :=
            if idFirst then [(pystr "id", JVal.int rowKey)] else []
          match buildCols ws excelRow 1 row base with
          | .error e => .error e
          | .ok obj =>
            let obj2 := if idFirst then obj else dictInsert obj (pystr "id") (JVal.int rowKey)
            genRows ws idFirst rest (rowIdx + 1) keyAndSerial.2
              (used ++ [(rowKey, excelRow)]) (dictInsert acc rowKey obj2)

/-- WorksheetData.generate_json restricted to its observable data result:
the exported key-to-record document (idFirst stands for JSON_ID_FIRST). -/
def generateJson (ws : Worksheet) (idFirst : Bool) :
    Except ExportErr (List (ℤ × List (PyStr × JVal))) :=
  genRows ws idFirst ws.rowData 0 0 [] []

/-- The count of non-empty rows before index i: the serial key the string-enum
policy has reached when row i is processed. -/
def serialBefore (rows : List (List CellVal)) (i : ℕ) : ℕ :=
  ((rows.take i).filter (fun r => decide (r ≠ []))).length

/-- The derived key of data row i of a worksheet, as a function of the row
list alone: the policy-dispatch of genRows applied at absolute index i. -/
def keyAt (ws : Worksheet) (rows : List (List CellVal)) (i : ℕ) : Except ExportErr ℤ :=
  if ws.needGenerateKeys then .ok (serialBefore rows i : ℤ)
  else if ws.compositeKeys then compositeKeyOfRow (rows.getD i []) (7 + i)
  else singleKeyOfRow (rows.getD i []) (7 + i)

/-- The required-field failure condition of the column loop, relative to the
starting column index ci: cell j is empty, its column ci+j exists, is labelled
required and has no default. -/
def reqOffendAt (ws : Worksheet) (ci : ℕ) (cells : List CellVal) (j : ℕ) : Prop :=
  cells.get? j = some .none ∧ ci + j < ws.fieldNames.length ∧
  ws.dataLabels.getD (ci + j) .none = .str (pystr "required") ∧
  ws.defaultValues.getD (ci + j) .none = .none

/-- No exported (non-key, non-ignored) column of the worksheet has the actual
field name id. -/
def NoIdCol (ws : Worksheet) : Prop :=
  ∀ i ∈ List.range ws.fieldNames.length, 0 < i →
    ws.dataLabels.getD i .none ≠ .str (pystr "ignore") →
    actualFieldName ws.fieldNames i ≠ pystr "id"

instance (ws : Worksheet) : Decidable (NoIdCol ws) := by
  unfold NoIdCol
  infer_instance

/-! ## worksheet_data.py: reference checking (WorksheetData.run_reference_checks)

A pending item mirrors the dict appended by generate_json.  The file system is
abstracted as a pure map from sheet name to the parsed target document: a
missing file and an unparseable file are both the None case, exactly how
load_ref_set lumps them via json_missing.  The per-sheet caches of the source
only avoid repeated reads of this pure map and are semantically transparent.
The set of reference values is modelled as the list of values in record order;
the source iterates a Python set, whose order is unspecified, to infer the
observed base type, so this determinization picks one of its behaviours. -/

/-- One entry of _pending_ref_checks. -/
structure RefItem where
  excelRow : ℕ
  fieldName : PyStr
  refSheet : PyStr
  refField : Option PyStr
  kind : PyStr
  base : Option PyStr
  value : JVal
deriving DecidableEq, Repr

/-- The log lines run_reference_checks can emit, with their structured data. -/
inductive LogEntry where
  | warnMissingTarget (excelRow : ℕ) (field : PyStr) (sheet : PyStr) (refField : Option PyStr)
  | errTypeNotOk (excelRow : ℕ) (field : PyStr) (expected : PyStr) (v : JVal)
  | errMissingRef (excelRow : ℕ) (field : PyStr) (v : JVal) (sheet : PyStr) (realField : PyStr)
  | errDeclaredTypeMismatch (excelRow : ℕ) (field : PyStr) (declared : PyStr) (target : PyStr)
  | errNotAList (excelRow : ℕ) (field : PyStr)
  | infoNoneMissing
deriving DecidableEq, Repr

/-- Lookup of a string key inside a parsed JSON record object. -/
def rowLookup (row : List (JVal × JVal)) (col : PyStr) : Option JVal :=
  (row.find? (fun p => p.1 = .str col)).map Prod.snd

/-- run_reference_checks._pick_first_nonempty_field: the first key of the
record whose value is neither a container nor None or the empty string. -/
def pickFirstNonemptyField (row : List (JVal × JVal)) : Option JVal :=
  (row.find? (fun p =>
    (match p.2 with | .list _ => false | .dict _ => false | _ => true)
      && decide (p.2 ≠ .null ∧ p.2 ≠ .str []))).map Prod.fst

/-- run_reference_checks._infer_base_from_value. -/
def inferBaseFromVal : JVal → Option PyStr
  | .bool _ => some (pystr "bool")
  | .int _ => some (pystr "int")
  | .float _ => some (pystr "float")
  | .str _ => some (pystr "string")
  | _ => Option.none

/-- run_reference_checks._infer_base_from_set over the collected values. -/
def inferBaseFromSet (values : List JVal) : Option PyStr :=
  (values.filterMap inferBaseFromVal).head?

/-- Python (a or b) over optional strings: None and the empty string are falsy. -/
def orBase (a b : Option PyStr) : Option PyStr :=
  match a with
  | some s => if s = [] then b else some s
  | Option.none => b

/-- run_reference_checks.load_ref_set over the abstract file map: a missing or
unparseable target yields None; an omitted field picks the first non-empty
non-container field of the first record (falling back to id); the result is
the value list of that column, its inferred base type and the real field. -/
def loadRefSet (files : PyStr → Option (List (PyStr × JVal)))
    (sheet : PyStr) (field : Option PyStr) :
    Option (List JVal × Option PyStr × PyStr) :=
  match files sheet with
  | Option.none => Option.none
  | some obj =>
    let realField : PyStr :=
      match field with
      | some f => f
      | Option.none =>
        match obj.head?.map Prod.snd with
        | some (.dict firstRow) =>
          match pickFirstNonemptyField firstRow with
          | some (.str k) => k
          | _ => pystr "id"
        | _ => pystr "id"
    let values := obj.filterMap (fun p =>
      match p.2 with
      | .dict row => rowLookup row realField
      | _ => Option.none)
    some (values, inferBaseFromSet values, realField)

/-- run_reference_checks._is_empty_ref: a configured empty-reference sentinel
(Python counts bools as ints there, and False equals 0). -/
def isEmptyRef (v : JVal) (baseType : Option PyStr) : Bool :=
  match baseType with
  | some bt =>
    if bt = pystr "int" then
      match v with
      | .int n => decide (n ∈ REFERENCE_ALLOW_EMPTY_INT_VALUES)
      | .bool b => decide ((if b then (1 : ℤ) else 0) ∈ REFERENCE_ALLOW_EMPTY_INT_VALUES)
      | _ => false
    else if bt = pystr "string" then
      match v with
      | .str s => decide (s ∈ REFERENCE_ALLOW_EMPTY_STRING_VALUES)
      | _ => false
    else false
  | Option.none => false

/-- run_reference_checks.check_one on one declared value: an empty-reference
sentinel passes silently; a truthy expected base with a failing runtime type
check logs a type error (without setting any_error); a value absent from the
reference set logs the missing-reference error and sets any_error. -/
def checkOne (excelRow : ℕ) (field sheet realField : PyStr)
    (refValues : List JVal) (refBase : Option PyStr)
    (expectedBase : Option PyStr) (v : JVal) : List LogEntry × Bool :=
  if isEmptyRef v (orBase expectedBase refBase) then ([], false)
  else
    match orBase expectedBase Option.none with
    | some eb =>
      if ¬ valueTypeOk eb v then ([.errTypeNotOk excelRow field eb v], false)
      else if v ∈ refValues then ([], false)
      else ([.errMissingRef excelRow field v sheet realField], true)
    | Option.none =>
      if v ∈ refValues then ([], false)
      else ([.errMissingRef excelRow field v sheet realField], true)

/-- The per-item body of the main loop of run_reference_checks: a missing
target gives one warning and skips the item; otherwise the declared-type
mismatch check runs first, then the scalar or per-element list checks. -/
def checkItem (files : PyStr → Option (List (PyStr × JVal))) (item : RefItem) :
    List LogEntry × Bool :=
  match loadRefSet files item.refSheet item.refField with
  | Option.none =>
    ([.warnMissingTarget item.excelRow item.fieldName item.refSheet item.refField], false)
  | some (refValues, refBase, realField) =>
    let declMismatch : List LogEntry × Bool :=
      match item.base, refBase with
      | some b, some rb =>
        if b ≠ [] ∧ rb ≠ [] ∧ b ≠ rb then
          ([.errDeclaredTypeMismatch item.excelRow item.fieldName b rb], true)
        else ([], false)
      | _, _ => ([], false)
    let eb := orBase item.base refBase
    let mainChecks : List LogEntry × Bool :=
      if item.kind = pystr "scalar" then
        checkOne item.excelRow item.fieldName item.refSheet realField refValues refBase eb item.value
      else if item.kind = pystr "list" then
        match item.value with
        | .list xs =>
          (xs.map (checkOne item.excelRow item.fieldName item.refSheet realField
            refValues refBase eb)).foldl
            (fun acc r => (acc.1 ++ r.1, acc.2 || r.2)) ([], false)
        | _ => ([.errNotAList item.excelRow item.fieldName], false)
      else ([], false)
    (declMismatch.1 ++ mainChecks.1, declMismatch.2 || mainChecks.2)

/-- WorksheetData.run_reference_checks: no pending items return silently;
otherwise every item is checked in order, all findings are log lines, and a
run with checks but no missing-reference or declared-type finding appends the
all-clear info line.  The Except result type records that the embedded method
body reaches no raise statement on any input. -/
def runReferenceChecks (files : PyStr → Option (List (PyStr × JVal)))
    (pending : List RefItem) : Except ExportErr (List LogEntry) :=
  if pending = [] then .ok []
  else
    let results := pending.map (checkItem files)
    let logs := (results.map Prod.fst).flatten
    let anyError := results.any Prod.snd
    .ok (if anyError then logs else logs ++ [.infoNoneMissing])

/-! ## Definitions written from the claim wording, for refinement comparison -/

/-- Modelled from the spec: the C8 sentence a string raw value is split on
the comma and each trimmed segment is converted with the element type, taken
literally (no segment is skipped). -/
def specListSplitConvert (elemName : PyStr) (s : PyStr) : Except ConvReason (List JVal) :=
  ((splitOnChar ',' s).map pyStrip).mapM (fun seg => elemConvOf elemName (.str seg))

/-- Modelled from the spec: the C1 composite condition, fields at index 1 and
2 carry key1:/key2: prefixes and both resolve to Primitive(int), with
resolution read off the code's own type-annotation parser. -/
def specCompositeCond (h : HeaderRows) : Bool :=
  (match h.fieldNames.getD 1 .none with
   | .str f1 => (matchKeyTag (pystr "key1") f1).isSome
   | _ => false) &&
  (match h.fieldNames.getD 2 .none with
   | .str f2 => (matchKeyTag (pystr "key2") f2).isSome
   | _ => false) &&
  decide (parseTypeAnno (h.dataTypes.getD 1 .none) = (pystr "scalar", some (pystr "int"))) &&
  decide (parseTypeAnno (h.dataTypes.getD 2 .none) = (pystr "scalar", some (pystr "int")))

/-- Modelled from the spec: the C1 three-step detection algorithm as the spec
words it, with field index 0's resolved type deciding StringEnum. -/
def specDetectPolicy (h : HeaderRows) : KeyPolicy :=
  if parseTypeAnno (h.dataTypes.getD 0 .none) = (pystr "scalar", some (pystr "string")) then
    .stringEnum
  else if specCompositeCond h then .compositeInt
  else .singleInt

/-! ## Concrete sheets used to instantiate the claims -/

/-- The header of the C1 counterexample sheet: three columns, type row
string/int/int, plain field names note/id/x, nothing ignored or defaulted. -/
def hdrC1 : HeaderRows :=
  ⟨[.none, .none, .none], [.none, .none, .none],
   [.str (pystr "string"), .str (pystr "int"), .str (pystr "int")],
   [.none, .none, .none],
   [.str (pystr "note"), .str (pystr "id"), .str (pystr "x")],
   [.none, .none, .none]⟩

/-- The worksheet the schema build produces from hdrC1 with no data rows. -/
def wsC1 : Worksheet :=
  ⟨pystr "S", hdrC1.remarks, hdrC1.headers, hdrC1.dataTypes, hdrC1.dataLabels,
   hdrC1.fieldNames, hdrC1.defaultValues, [], false, false, [], []⟩

/-- A string-enum sheet whose single effective column is itself named id:
type row int/string, field names note/id. -/
def hdrC7 : HeaderRows :=
  ⟨[.none, .none], [.none, .none],
   [.str (pystr "int"), .str (pystr "string")], [.none, .none],
   [.str (pystr "note"), .str (pystr "id")], [.none, .none]⟩

/-- The worksheet the schema build produces from hdrC7 with the single data
row Foo (string-enum policy). -/
def wsC7 : Worksheet :=
  ⟨pystr "E", hdrC7.remarks, hdrC7.headers, hdrC7.dataTypes, hdrC7.dataLabels,
   hdrC7.fieldNames, hdrC7.defaultValues, [[.str (pystr "Foo")]], true, false, [], []⟩

/-- A plain single-int-key sheet with no column named id: type row int/int,
field names num/val. -/
def hdr7w : HeaderRows :=
  ⟨[.none, .none], [.none, .none],
   [.str (pystr "int"), .str (pystr "int")], [.none, .none],
   [.str (pystr "num"), .str (pystr "val")], [.none, .none]⟩

/-- The worksheet the schema build produces from hdr7w with the single data
row 3 (single-int policy). -/
def ws7w : Worksheet :=
  ⟨pystr "W", hdr7w.remarks, hdr7w.headers, hdr7w.dataTypes, hdr7w.dataLabels,
   hdr7w.fieldNames, hdr7w.defaultValues, [[.int 3]], false, false, [], []⟩

/-- The worksheet of hdr7w with two data rows that both carry single-int
key 1. -/
def ws4w : Worksheet :=
  ⟨pystr "D", hdr7w.remarks, hdr7w.headers, hdr7w.dataTypes, hdr7w.dataLabels,
   hdr7w.fieldNames, hdr7w.defaultValues, [[.int 1], [.int 1]], false, false, [], []⟩

/-! ## Helper lemmas about the dict and lookup primitives -/

theorem assocLookup_dictInsert_self {α β : Type} [DecidableEq α]
    (d : List (α × β)) (k : α) (v : β) :
    assocLookup (dictInsert d k v) k = some v := by
  induction d with
  | nil => simp [dictInsert, assocLookup]
  | cons p rest ih =>
    obtain ⟨k0, v0⟩ := p
    by_cases h : k0 = k <;> simp [dictInsert, assocLookup, h, ih]

theorem dictInsert_keys {α β : Type} [DecidableEq α] (d : List (α × β)) (k : α) (v : β) :
    (dictInsert d k v).map Prod.fst =
      if k ∈ d.map Prod.fst then d.map Prod.fst else d.map Prod.fst ++ [k] := by
  induction d with
  | nil => simp [dictInsert]
  | cons p rest ih =>
    obtain ⟨k0, v0⟩ := p
    by_cases h : k0 = k
    · simp [dictInsert, h]
    · have hne : ¬ k = k0 := fun hk => h hk.symm
      by_cases hm : k ∈ rest.map Prod.fst <;>
        simp [dictInsert, h, ih, hm, hne]

theorem dictInsert_fresh {α β : Type} [DecidableEq α] (d : List (α × β)) (k : α) (v : β)
    (hk : k ∉ d.map Prod.fst) : dictInsert d k v = d ++ [(k, v)] := by
  induction d with
  | nil => simp [dictInsert]
  | cons p rest ih =>
    obtain ⟨k0, v0⟩ := p
    simp only [List.map_cons, List.mem_cons] at hk
    push_neg at hk
    have h : ¬ k0 = k := fun hk0 => hk.1 hk0.symm
    simp [dictInsert, h, ih hk.2]

theorem assocLookup_none_iff {α β : Type} [DecidableEq α] (d : List (α × β)) (k : α) :
    assocLookup d k = Option.none ↔ k ∉ d.map Prod.fst := by
  induction d with
  | nil => simp [assocLookup]
  | cons p rest ih =>
    obtain ⟨k0, v0⟩ := p
    by_cases h : k0 = k
    · simp [assocLookup, h]
    · have hne : ¬ k = k0 := fun hk => h hk.symm
      simp [assocLookup, h, ih, hne]

theorem assocLookup_mem {α β : Type} [DecidableEq α] (d : List (α × β)) (k : α) (v : β)
    (h : assocLookup d k = some v) : (k, v) ∈ d := by
  induction d with
  | nil => simp [assocLookup] at h
  | cons p rest ih =>
    obtain ⟨k0, v0⟩ := p
    by_cases hk : k0 = k
    · subst hk
      simp [assocLookup] at h
      simp [h]
    · simp [assocLookup, hk] at h
      exact List.mem_cons_of_mem _ (ih h)

theorem dictInsert_head {α β : Type} [DecidableEq α] (d : List (α × β)) (k : α) (v : β)
    (a : α × β) (ha : d.head? = some a) :
    ∃ w, (dictInsert d k v).head? = some (a.1, w) ∧ (a.1 ≠ k → w = a.2) := by
  cases d with
  | nil => simp at ha
  | cons p rest =>
    obtain ⟨k0, v0⟩ := p
    simp at ha
    subst ha
    by_cases h : k0 = k
    · exact ⟨v, by simp [dictInsert, h], fun hne => absurd h hne⟩
    · exact ⟨v0, by simp [dictInsert, h], fun _ => rfl⟩

theorem mem_dictInsert {α β : Type} [DecidableEq α] (d : List (α × β)) (k : α) (v : β)
    (e : α × β) (he : e ∈ dictInsert d k v) : e = (k, v) ∨ e ∈ d := by
  induction d with
  | nil =>
    left
    simpa [dictInsert] using he
  | cons p rest ih =>
    obtain ⟨k0, v0⟩ := p
    by_cases h : k0 = k
    · rw [dictInsert, if_pos h] at he
      rcases List.mem_cons.mp he with h2 | h2
      · left
        rw [h2, h]
      · right
        exact List.mem_cons_of_mem _ h2
    · rw [dictInsert, if_neg h] at he
      rcases List.mem_cons.mp he with h2 | h2
      · right
        rw [h2]
        exact List.mem_cons_self _ _
      · rcases ih h2 with h3 | h3
        · left
          exact h3
        · right
          exact List.mem_cons_of_mem _ h3

theorem assocLookup_dictInsert_ne {α β : Type} [DecidableEq α]
    (d : List (α × β)) (k q : α) (v : β) (h : q ≠ k) :
    assocLookup (dictInsert d k v) q = assocLookup d q := by
  induction d with
  | nil => simp [dictInsert, assocLookup, Ne.symm h]
  | cons p rest ih =>
    obtain ⟨k0, v0⟩ := p
    by_cases hk : k0 = k
    · simp [dictInsert, assocLookup, hk, Ne.symm h]
    · simp [dictInsert, assocLookup, hk, ih]

theorem getLast_append_single {α : Type} (l : List α) (a : α) :
    (l ++ [a]).getLast? = some a :=
  List.getLast?_concat l

/-! ## Helper lemmas about the per-cell and per-column loops -/

theorem processCell_error_iff (ws : Worksheet) (ci er : ℕ) (cell : CellVal) (e : ExportErr) :
    processCell ws ci er cell = .error e ↔
      (cell = .none ∧ ws.defaultValues.getD ci .none = .none ∧
       ws.dataLabels.getD ci .none = .str (pystr "required") ∧
       e = .requiredMissing (actualFieldName ws.fieldNames ci) er) := by
  constructor
  · intro h
    unfold processCell at h
    by_cases hc : cell = .none
    · rw [if_pos hc] at h
      by_cases hd : ws.defaultValues.getD ci .none = .none ∧
          ws.dataLabels.getD ci .none = .str (pystr "required")
      · rw [if_pos hd] at h
        injection h with h2
        exact ⟨hc, hd.1, hd.2, h2.symm⟩
      · rw [if_neg hd] at h
        exact absurd h (by simp)
    · rw [if_neg hc] at h
      exact absurd h (by simp)
  · rintro ⟨hc, hd1, hd2, he⟩
    unfold processCell
    rw [if_pos hc, if_pos ⟨hd1, hd2⟩, he]

theorem processCell_ok_of_not_offend (ws : Worksheet) (ci er : ℕ) (cell : CellVal)
    (h : ¬ (cell = .none ∧ ws.defaultValues.getD ci .none = .none ∧
            ws.dataLabels.getD ci .none = .str (pystr "required"))) :
    ∃ v, processCell ws ci er cell = .ok v := by
  cases hpc : processCell ws ci er cell with
  | ok v => exact ⟨v, rfl⟩
  | error e =>
    have := (processCell_error_iff ws ci er cell e).mp hpc
    exact absurd ⟨this.1, this.2.1, this.2.2.1⟩ h

theorem reqOffendAt_cons_succ (ws : Worksheet) (ci : ℕ) (cell : CellVal)
    (rest : List CellVal) (j : ℕ) :
    reqOffendAt ws ci (cell :: rest) (j + 1) ↔ reqOffendAt ws (ci + 1) rest j := by
  unfold reqOffendAt
  have harith : ci + (j + 1) = ci + 1 + j := by omega
  rw [harith]
  simp

theorem reqOffendAt_cons_zero (ws : Worksheet) (ci : ℕ) (cell : CellVal)
    (rest : List CellVal) :
    reqOffendAt ws ci (cell :: rest) 0 ↔
      (cell = .none ∧ ci < ws.fieldNames.length ∧
       ws.dataLabels.getD ci .none = .str (pystr "required") ∧
       ws.defaultValues.getD ci .none = .none) := by
  unfold reqOffendAt
  simp [eq_comm]

theorem buildCols_error_offend (ws : Worksheet) (er : ℕ) :
    ∀ (cells : List CellVal) (ci : ℕ) (obj : List (PyStr × JVal)) (e : ExportErr),
      buildCols ws er ci cells obj = .error e →
      ∃ j, reqOffendAt ws ci cells j ∧
        e = .requiredMissing (actualFieldName ws.fieldNames (ci + j)) er := by
  intro cells
  induction cells with
  | nil => intro ci obj e h; simp [buildCols] at h
  | cons cell rest ih =>
    intro ci obj e h
    unfold buildCols at h
    by_cases hlen : ws.fieldNames.length ≤ ci
    · rw [if_pos hlen] at h
      obtain ⟨j, hoff, he⟩ := ih (ci + 1) obj e h
      exact ⟨j + 1, (reqOffendAt_cons_succ ws ci cell rest j).mpr hoff,
        by rw [he, show ci + 1 + j = ci + (j + 1) from by omega]⟩
    · rw [if_neg hlen] at h
      by_cases hig : ws.dataLabels.getD ci .none = .str (pystr "ignore")
      · rw [if_pos hig] at h
        obtain ⟨j, hoff, he⟩ := ih (ci + 1) obj e h
        exact ⟨j + 1, (reqOffendAt_cons_succ ws ci cell rest j).mpr hoff,
          by rw [he, show ci + 1 + j = ci + (j + 1) from by omega]⟩
      · rw [if_neg hig] at h
        cases hpc : processCell ws ci er cell with
        | error e0 =>
          rw [hpc] at h
          injection h with h2
          subst h2
          have := (processCell_error_iff ws ci er cell e0).mp hpc
          have hlt : ci < ws.fieldNames.length := Nat.lt_of_not_le hlen
          refine ⟨0, ?_, ?_⟩
          · rw [reqOffendAt_cons_zero]
            exact ⟨this.1, hlt, this.2.2.1, this.2.1⟩
          · rw [this.2.2.2, Nat.add_zero]
        | ok v =>
          rw [hpc] at h
          obtain ⟨j, hoff, he⟩ := ih (ci + 1) _ e h
          exact ⟨j + 1, (reqOffendAt_cons_succ ws ci cell rest j).mpr hoff,
            by rw [he, show ci + 1 + j = ci + (j + 1) from by omega]⟩

theorem buildCols_ok_of_no_offend (ws : Worksheet) (er : ℕ) :
    ∀ (cells : List CellVal) (ci : ℕ) (obj : List (PyStr × JVal)),
      (∀ j, ¬ reqOffendAt ws ci cells j) →
      ∃ obj2, buildCols ws er ci cells obj = .ok obj2 := by
  intro cells
  induction cells with
  | nil => intro ci obj _; exact ⟨obj, rfl⟩
  | cons cell rest ih =>
    intro ci obj hno
    have hrest : ∀ j, ¬ reqOffendAt ws (ci + 1) rest j := by
      intro j hj
      exact hno (j + 1) ((reqOffendAt_cons_succ ws ci cell rest j).mpr hj)
    unfold buildCols
    by_cases hlen : ws.fieldNames.length ≤ ci
    · rw [if_pos hlen]; exact ih (ci + 1) obj hrest
    · rw [if_neg hlen]
      by_cases hig : ws.dataLabels.getD ci .none = .str (pystr "ignore")
      · rw [if_pos hig]; exact ih (ci + 1) obj hrest
      · rw [if_neg hig]
        have hnot : ¬ (cell = .none ∧ ws.defaultValues.getD ci .none = .none ∧
            ws.dataLabels.getD ci .none = .str (pystr "required")) := by
          intro hcon
          exact hno 0 ((reqOffendAt_cons_zero ws ci cell rest).mpr
            ⟨hcon.1, by omega, hcon.2.2, hcon.2.1⟩)
        obtain ⟨v, hv⟩ := processCell_ok_of_not_offend ws ci er cell hnot
        rw [hv]
        exact ih (ci + 1) _ hrest

theorem buildCols_error_least (ws : Worksheet) (er : ℕ) :
    ∀ (cells : List CellVal) (ci : ℕ) (obj : List (PyStr × JVal)) (j : ℕ),
      reqOffendAt ws ci cells j → (∀ j' < j, ¬ reqOffendAt ws ci cells j') →
      buildCols ws er ci cells obj =
        .error (.requiredMissing (actualFieldName ws.fieldNames (ci + j)) er) := by
  intro cells
  induction cells with
  | nil =>
    intro ci obj j hoff _
    exact absurd hoff.1 (by simp)
  | cons cell rest ih =>
    intro ci obj j hoff hleast
    unfold buildCols
    by_cases hlen : ws.fieldNames.length ≤ ci
    · rw [if_pos hlen]
      cases j with
      | zero =>
        rw [reqOffendAt_cons_zero] at hoff
        obtain ⟨_, hlt, _, _⟩ := hoff
        omega
      | succ j0 =>
        rw [show ci + (j0 + 1) = ci + 1 + j0 by omega]
        exact ih (ci + 1) obj j0 ((reqOffendAt_cons_succ ws ci cell rest j0).mp hoff)
          (fun j' hj' => fun hc => hleast (j' + 1) (by omega)
            ((reqOffendAt_cons_succ ws ci cell rest j').mpr hc))
    · rw [if_neg hlen]
      by_cases hig : ws.dataLabels.getD ci .none = .str (pystr "ignore")
      · rw [if_pos hig]
        cases j with
        | zero =>
          rw [reqOffendAt_cons_zero] at hoff
          rw [hoff.2.2.1] at hig
          exact absurd hig (by decide)
        | succ j0 =>
          rw [show ci + (j0 + 1) = ci + 1 + j0 by omega]
          exact ih (ci + 1) obj j0 ((reqOffendAt_cons_succ ws ci cell rest j0).mp hoff)
            (fun j' hj' => fun hc => hleast (j' + 1) (by omega)
              ((reqOffendAt_cons_succ ws ci cell rest j').mpr hc))
      · rw [if_neg hig]
        cases j with
        | zero =>
          rw [reqOffendAt_cons_zero] at hoff
          have hpc : processCell ws ci er cell =
              .error (.requiredMissing (actualFieldName ws.fieldNames ci) er) := by
            rw [processCell_error_iff]
            exact ⟨hoff.1, hoff.2.2.2, hoff.2.2.1, rfl⟩
          rw [Nat.add_zero, hpc]
          rfl
        | succ j0 =>
          have h0 : ¬ reqOffendAt ws ci (cell :: rest) 0 := hleast 0 (by omega)
          rw [reqOffendAt_cons_zero] at h0
          have hlt : ci < ws.fieldNames.length := Nat.lt_of_not_le hlen
          have hnot : ¬ (cell = .none ∧ ws.defaultValues.getD ci .none = .none ∧
              ws.dataLabels.getD ci .none = .str (pystr "required")) := by
            intro hcon
            exact h0 ⟨hcon.1, hlt, hcon.2.2, hcon.2.1⟩
          obtain ⟨v, hv⟩ := processCell_ok_of_not_offend ws ci er cell hnot
          rw [hv]
          rw [show ci + (j0 + 1) = ci + 1 + j0 by omega]
          exact ih (ci + 1) _ j0 ((reqOffendAt_cons_succ ws ci cell rest j0).mp hoff)
            (fun j' hj' => fun hc => hleast (j' + 1) (by omega)
              ((reqOffendAt_cons_succ ws ci cell rest j').mpr hc))

/-! ## Helper lemmas about the schema-build stages -/

theorem alignList_id (l : List CellVal) (n : ℕ) (h : l.length = n) : alignList l n = l := by
  unfold alignList
  rw [if_pos h]

theorem csharpTypeOf_error_shape (c : CellVal) (e : ExportErr)
    (h : csharpTypeOf c = .error e) : e = .runtimeErr .attrError := by
  cases c <;> first
    | exact Except.noConfusion h
    | (injection h with h2; exact h2.symm)

theorem propsGo_error_shape (fn dt : List CellVal) :
    ∀ (idxs : List ℕ) (acc : List (PyStr × PyStr)) (e : ExportErr),
      propsGo fn dt idxs acc = .error e → e = .runtimeErr .attrError := by
  intro idxs
  induction idxs with
  | nil => intro acc e h; exact absurd h (by simp [propsGo])
  | cons i rest ih =>
    intro acc e h
    unfold propsGo at h
    cases hc : csharpTypeOf (dt.getD i .none) with
    | error e0 =>
      rw [hc] at h
      injection h with h2
      rw [← h2]
      exact csharpTypeOf_error_shape _ _ hc
    | ok t =>
      rw [hc] at h
      exact ih _ e h

theorem needGenerateKeysOf_error_shape (fn dt dl : List CellVal) (e : ExportErr)
    (h : needGenerateKeysOf fn dt dl = .error e) : e = .runtimeErr .attrError := by
  unfold needGenerateKeysOf propertiesDict at h
  cases hp : propsGo fn dt (effectiveIndices fn dl) [] with
  | error e0 =>
    rw [hp] at h
    injection h with h2
    rw [← h2]
    exact propsGo_error_shape fn dt _ _ _ hp
  | ok pd =>
    rw [hp] at h
    exact Except.noConfusion h

theorem enumKeysGo_error_shape :
    ∀ (rows : List (List CellVal)) (idx : ℕ) (acc : List (CellVal × ℕ)) (e : ExportErr),
      enumKeysGo rows idx acc = .error e → ∃ n r, e = .invalidEnumName n r := by
  intro rows
  induction rows with
  | nil => intro idx acc e h; exact absurd h (by simp [enumKeysGo])
  | cons row rest ih =>
    intro idx acc e h
    unfold enumKeysGo at h
    by_cases hr : row = []
    · rw [if_pos hr] at h
      exact ih _ _ _ h
    · rw [if_neg hr] at h
      by_cases hv : available_csharp_enum_name (row.headD .none) = true
      · rw [if_pos hv] at h
        exact ih _ _ _ h
      · rw [if_neg hv] at h
        injection h with h2
        exact ⟨_, _, h2.symm⟩

theorem checkDuplicateEnumKeys_error_shape (rows : List (List CellVal)) (e : ExportErr)
    (h : checkDuplicateEnumKeys rows = .error e) : ∃ n r, e = .invalidEnumName n r := by
  unfold checkDuplicateEnumKeys at h
  cases hg : enumKeysGo rows 0 [] with
  | error e0 =>
    simp only [hg, Except.error.injEq] at h
    rw [← h]
    exact enumKeysGo_error_shape rows 0 [] e0 hg
  | ok entries =>
    simp only [hg] at h
    by_cases hd : (entries.map Prod.fst).any
        (fun v => decide (1 < (entries.map Prod.fst).count v)) = true
    · rw [if_pos hd] at h
      injection h with h2
      exact ⟨_, _, h2.symm⟩
    · rw [if_neg hd] at h
      exact Except.noConfusion h

theorem compositeDupGo_error_shape :
    ∀ (rows : List (List CellVal)) (idx : ℕ) (seen : List (ℤ × ℕ)) (e : ExportErr),
      compositeDupGo rows idx seen = .error e →
      (∃ rr, e = .runtimeErr rr) ∨ (∃ k a b, e = .duplicatePrimaryKey k a b) := by
  intro rows
  induction rows with
  | nil => intro idx seen e h; exact absurd h (by simp [compositeDupGo])
  | cons row rest ih =>
    intro idx seen e h
    unfold compositeDupGo at h
    by_cases hl : row.length < 2
    · rw [if_pos hl] at h
      exact ih _ _ _ h
    · rw [if_neg hl] at h
      by_cases hk : row.getD 0 .none = .none ∨ row.getD 1 .none = .none
      · rw [if_pos hk] at h
        injection h with h2
        exact Or.inl ⟨_, h2.symm⟩
      · rw [if_neg hk] at h
        cases h1 : pyInt (row.getD 0 .none) <;> cases h2 : pyInt (row.getD 1 .none) <;>
          simp only [h1, h2] at h
        · injection h with h3
          exact Or.inl ⟨_, h3.symm⟩
        · injection h with h3
          exact Or.inl ⟨_, h3.symm⟩
        · injection h with h3
          exact Or.inl ⟨_, h3.symm⟩
        · rename_i i1 i2
          cases hs : assocLookup seen (i1 * MULTIPLIER + i2) with
          | some firstRow =>
            rw [hs] at h
            injection h with h3
            exact Or.inr ⟨_, _, _, h3.symm⟩
          | none =>
            rw [hs] at h
            exact ih _ _ _ h

theorem checkFieldNamesGo_error_shape (name : PyStr) (fn dl : List CellVal) :
    ∀ (idxs : List ℕ) (e : ExportErr),
      checkFieldNamesGo name fn dl idxs = .error e → ∃ f ci s, e = .invalidFieldName f ci s := by
  intro idxs
  induction idxs with
  | nil => intro e h; exact absurd h (by simp [checkFieldNamesGo])
  | cons i rest ih =>
    intro e h
    unfold checkFieldNamesGo at h
    by_cases h0 : i = 0
    · rw [if_pos h0] at h
      exact ih _ h
    · rw [if_neg h0] at h
      by_cases hig : dl.getD i .none = .str (pystr "ignore")
      · rw [if_pos hig] at h
        exact ih _ h
      · rw [if_neg hig] at h
        cases hf : fn.getD i .none <;> rw [hf] at h
        · exact ih _ h
        · exact ih _ h
        · exact ih _ h
        · by_cases hv : is_valid_csharp_identifier (actualFieldName fn i) = true
          · rw [if_pos hv] at h
            exact ih _ h
          · rw [if_neg hv] at h
            injection h with h2
            exact ⟨_, _, _, h2.symm⟩
        · exact ih _ h

theorem check_repeating_error_shape (values : List CellVal) (e : ExportErr)
    (h : check_repeating_values values = .error e) :
    (∃ d, e = .duplicateField d) ∨ e = .runtimeErr .sortedTypeErr := by
  unfold check_repeating_values at h
  by_cases hd : repeatedVals values = []
  · rw [if_pos hd] at h
    exact Except.noConfusion h
  · rw [if_neg hd] at h
    by_cases hs : pySortOk (repeatedVals values) = true
    · rw [if_pos hs] at h
      injection h with h2
      exact Or.inl ⟨_, h2.symm⟩
    · rw [if_neg hs] at h
      injection h with h2
      exact Or.inr h2.symm

theorem schemaStage2_no_hf (name : PyStr) (ha : HeaderRows) (rows : List (List CellVal))
    (s : PyStr) (r : HeaderReason) :
    schemaStage2 name ha rows ≠ .error (.headerFormat s r) := by
  intro h
  unfold schemaStage2 at h
  cases hc : check_repeating_values ha.fieldNames with
  | error e =>
    simp only [hc, Except.error.injEq] at h
    rcases check_repeating_error_shape _ _ hc with ⟨d, hd⟩ | hd
    · rw [hd] at h
      exact ExportErr.noConfusion h
    · rw [hd] at h
      exact ExportErr.noConfusion h
  | ok u =>
    simp only [hc] at h
    cases hn : needGenerateKeysOf ha.fieldNames ha.dataTypes ha.dataLabels with
    | error e =>
      simp only [hn, Except.error.injEq] at h
      have hsh := needGenerateKeysOf_error_shape _ _ _ _ hn
      rw [hsh] at h
      exact ExportErr.noConfusion h
    | ok ngk =>
      simp only [hn] at h
      cases he : (if ngk then checkDuplicateEnumKeys rows else Except.ok ()) with
      | error e =>
        simp only [he, Except.error.injEq] at h
        have hshape : ∃ n0 r0, e = ExportErr.invalidEnumName n0 r0 := by
          cases hngk : ngk
          · rw [hngk] at he
            simp at he
          · rw [hngk] at he
            simp at he
            exact checkDuplicateEnumKeys_error_shape _ _ he
        obtain ⟨n0, r0, hsh⟩ := hshape
        rw [hsh] at h
        exact ExportErr.noConfusion h
      | ok u2 =>
        simp only [he] at h
        cases hcc : (if (detectComposite ha.fieldNames ha.dataTypes).1 then
            checkDuplicateCompositeKeys rows else Except.ok ()) with
        | error e =>
          simp only [hcc, Except.error.injEq] at h
          have hshape : (∃ rr, e = ExportErr.runtimeErr rr) ∨
              (∃ k a b, e = ExportErr.duplicatePrimaryKey k a b) := by
            cases hcomp : (detectComposite ha.fieldNames ha.dataTypes).1
            · rw [hcomp] at hcc
              simp at hcc
            · rw [hcomp] at hcc
              simp at hcc
              exact compositeDupGo_error_shape _ _ _ _ hcc
          rcases hshape with ⟨rr, hsh⟩ | ⟨k, a, b, hsh⟩ <;> rw [hsh] at h <;>
            exact ExportErr.noConfusion h
        | ok u3 =>
          simp only [hcc] at h
          cases hcf : checkFieldNames name ha.fieldNames ha.dataLabels with
          | error e =>
            simp only [hcf, Except.error.injEq] at h
            obtain ⟨f0, ci0, s0, hsh⟩ :=
              checkFieldNamesGo_error_shape name ha.fieldNames ha.dataLabels _ _ hcf
            rw [hsh] at h
            exact ExportErr.noConfusion h
          | ok u4 =>
            simp only [hcf] at h
            exact Except.noConfusion h

theorem headerStage_ok_of_conditions (name : PyStr) (h : HeaderRows)
    (c1 : h.remarks ≠ []) (c2 : h.headers ≠ []) (c3 : h.dataTypes ≠ [])
    (c4 : h.dataLabels ≠ []) (c5 : h.fieldNames ≠ []) (c6 : h.defaultValues ≠ [])
    (l1 : h.remarks.length = h.fieldNames.length)
    (l2 : h.headers.length = h.fieldNames.length)
    (l3 : h.dataTypes.length = h.fieldNames.length)
    (l4 : h.dataLabels.length = h.fieldNames.length)
    (l6 : h.defaultValues.length = h.fieldNames.length) :
    headerStage name h = .ok h := by
  have c7 : ¬ h.fieldNames.length = 0 := fun hz => c5 (List.length_eq_zero.mp hz)
  unfold headerStage
  rw [if_neg c1, if_neg c2, if_neg c3, if_neg c4, if_neg c5, if_neg c6,
      if_neg c7, if_neg (by omega), if_neg (by omega), if_neg (by omega),
      if_neg (by omega), if_neg (by omega), if_neg (by omega)]
  rw [alignList_id _ _ l1, alignList_id _ _ l2, alignList_id _ _ l3,
      alignList_id _ _ l4, alignList_id _ _ rfl, alignList_id _ _ l6]

theorem headerStage_dichotomy (name : PyStr) (h : HeaderRows) :
    ((h.remarks ≠ [] ∧ h.headers ≠ [] ∧ h.dataTypes ≠ [] ∧ h.dataLabels ≠ [] ∧
      h.fieldNames ≠ [] ∧ h.defaultValues ≠ [] ∧
      h.remarks.length = h.fieldNames.length ∧ h.headers.length = h.fieldNames.length ∧
      h.dataTypes.length = h.fieldNames.length ∧ h.dataLabels.length = h.fieldNames.length ∧
      h.defaultValues.length = h.fieldNames.length) ∧ headerStage name h = .ok h) ∨
    (¬ (h.remarks ≠ [] ∧ h.headers ≠ [] ∧ h.dataTypes ≠ [] ∧ h.dataLabels ≠ [] ∧
      h.fieldNames ≠ [] ∧ h.defaultValues ≠ [] ∧
      h.remarks.length = h.fieldNames.length ∧ h.headers.length = h.fieldNames.length ∧
      h.dataTypes.length = h.fieldNames.length ∧ h.dataLabels.length = h.fieldNames.length ∧
      h.defaultValues.length = h.fieldNames.length) ∧
     ∃ r, headerStage name h = .error (.headerFormat name r)) := by
  by_cases c1 : h.remarks = []
  · refine Or.inr ⟨fun hc => hc.1 c1, ⟨HeaderReason.missingOrEmpty 1, ?_⟩⟩
    unfold headerStage
    rw [if_pos c1]
  by_cases c2 : h.headers = []
  · refine Or.inr ⟨fun hc => hc.2.1 c2, ⟨HeaderReason.missingOrEmpty 2, ?_⟩⟩
    unfold headerStage
    rw [if_neg c1, if_pos c2]
  by_cases c3 : h.dataTypes = []
  · refine Or.inr ⟨fun hc => hc.2.2.1 c3, ⟨HeaderReason.missingOrEmpty 3, ?_⟩⟩
    unfold headerStage
    rw [if_neg c1, if_neg c2, if_pos c3]
  by_cases c4 : h.dataLabels = []
  · refine Or.inr ⟨fun hc => hc.2.2.2.1 c4, ⟨HeaderReason.missingOrEmpty 4, ?_⟩⟩
    unfold headerStage
    rw [if_neg c1, if_neg c2, if_neg c3, if_pos c4]
  by_cases c5 : h.fieldNames = []
  · refine Or.inr ⟨fun hc => hc.2.2.2.2.1 c5, ⟨HeaderReason.missingOrEmpty 5, ?_⟩⟩
    unfold headerStage
    rw [if_neg c1, if_neg c2, if_neg c3, if_neg c4, if_pos c5]
  by_cases c6 : h.defaultValues = []
  · refine Or.inr ⟨fun hc => hc.2.2.2.2.2.1 c6, ⟨HeaderReason.missingOrEmpty 6, ?_⟩⟩
    unfold headerStage
    rw [if_neg c1, if_neg c2, if_neg c3, if_neg c4, if_neg c5, if_pos c6]
  have c7 : ¬ h.fieldNames.length = 0 := fun hz => c5 (List.length_eq_zero.mp hz)
  by_cases l1 : h.remarks.length = h.fieldNames.length
  case neg =>
    refine Or.inr ⟨fun hc => l1 hc.2.2.2.2.2.2.1, ⟨HeaderReason.lengthMismatch 1 h.remarks.length h.fieldNames.length, ?_⟩⟩
    unfold headerStage
    rw [if_neg c1, if_neg c2, if_neg c3, if_neg c4, if_neg c5, if_neg c6,
        if_neg c7, if_pos l1]
  by_cases l2 : h.headers.length = h.fieldNames.length
  case neg =>
    refine Or.inr ⟨fun hc => l2 hc.2.2.2.2.2.2.2.1, ⟨HeaderReason.lengthMismatch 2 h.headers.length h.fieldNames.length, ?_⟩⟩
    unfold headerStage
    rw [if_neg c1, if_neg c2, if_neg c3, if_neg c4, if_neg c5, if_neg c6,
        if_neg c7, if_neg (by omega), if_pos l2]
  by_cases l3 : h.dataTypes.length = h.fieldNames.length
  case neg =>
    refine Or.inr ⟨fun hc => l3 hc.2.2.2.2.2.2.2.2.1, ⟨HeaderReason.lengthMismatch 3 h.dataTypes.length h.fieldNames.length, ?_⟩⟩
    unfold headerStage
    rw [if_neg c1, if_neg c2, if_neg c3, if_neg c4, if_neg c5, if_neg c6,
        if_neg c7, if_neg (by omega), if_neg (by omega), if_pos l3]
  by_cases l4 : h.dataLabels.length = h.fieldNames.length
  case neg =>
    refine Or.inr ⟨fun hc => l4 hc.2.2.2.2.2.2.2.2.2.1, ⟨HeaderReason.lengthMismatch 4 h.dataLabels.length h.fieldNames.length, ?_⟩⟩
    unfold headerStage
    rw [if_neg c1, if_neg c2, if_neg c3, if_neg c4, if_neg c5, if_neg c6,
        if_neg c7, if_neg (by omega), if_neg (by omega), if_neg (by omega), if_pos l4]
  by_cases l6 : h.defaultValues.length = h.fieldNames.length
  case neg =>
    refine Or.inr ⟨fun hc => l6 hc.2.2.2.2.2.2.2.2.2.2, ⟨HeaderReason.lengthMismatch 6 h.defaultValues.length h.fieldNames.length, ?_⟩⟩
    unfold headerStage
    rw [if_neg c1, if_neg c2, if_neg c3, if_neg c4, if_neg c5, if_neg c6,
        if_neg c7, if_neg (by omega), if_neg (by omega), if_neg (by omega), if_neg (by omega), if_neg (by omega), if_pos l6]
  exact Or.inl ⟨⟨c1, c2, c3, c4, c5, c6, l1, l2, l3, l4, l6⟩,
    headerStage_ok_of_conditions name h c1 c2 c3 c4 c5 c6 l1 l2 l3 l4 l6⟩

theorem headerStage_ok_inv (name : PyStr) (h : HeaderRows) (ha : HeaderRows)
    (hst : headerStage name h = .ok ha) :
    h.remarks ≠ [] ∧ h.headers ≠ [] ∧ h.dataTypes ≠ [] ∧ h.dataLabels ≠ [] ∧
    h.fieldNames ≠ [] ∧ h.defaultValues ≠ [] ∧
    h.remarks.length = h.fieldNames.length ∧ h.headers.length = h.fieldNames.length ∧
    h.dataTypes.length = h.fieldNames.length ∧ h.dataLabels.length = h.fieldNames.length ∧
    h.defaultValues.length = h.fieldNames.length := by
  rcases headerStage_dichotomy name h with ⟨hc, _⟩ | ⟨_, r, herr⟩
  · exact hc
  · rw [herr] at hst
    exact Except.noConfusion hst

theorem headerStage_cases (name : PyStr) (h : HeaderRows) :
    (∃ ha, headerStage name h = .ok ha) ∨
    (∃ r, headerStage name h = .error (.headerFormat name r)) := by
  rcases headerStage_dichotomy name h with ⟨_, hok⟩ | ⟨_, r, herr⟩
  · exact Or.inl ⟨h, hok⟩
  · exact Or.inr ⟨r, herr⟩

theorem schemaStage2_ok_inv (name : PyStr) (ha : HeaderRows) (rows : List (List CellVal))
    (ws : Worksheet) (h : schemaStage2 name ha rows = .ok ws) :
    ws.fieldNames = ha.fieldNames ∧ ws.dataTypes = ha.dataTypes ∧
    ws.dataLabels = ha.dataLabels ∧
    needGenerateKeysOf ha.fieldNames ha.dataTypes ha.dataLabels = .ok ws.needGenerateKeys ∧
    ws.compositeKeys = (detectComposite ha.fieldNames ha.dataTypes).1 := by
  unfold schemaStage2 at h
  cases hc : check_repeating_values ha.fieldNames with
  | error e =>
    simp only [hc] at h
    exact Except.noConfusion h
  | ok u =>
    simp only [hc] at h
    cases hn : needGenerateKeysOf ha.fieldNames ha.dataTypes ha.dataLabels with
    | error e =>
      simp only [hn] at h
      exact Except.noConfusion h
    | ok ngk =>
      simp only [hn] at h
      cases he : (if ngk then checkDuplicateEnumKeys rows else Except.ok ()) with
      | error e =>
        simp only [he] at h
        exact Except.noConfusion h
      | ok u2 =>
        simp only [he] at h
        cases hcc : (if (detectComposite ha.fieldNames ha.dataTypes).1 then
            checkDuplicateCompositeKeys rows else Except.ok ()) with
        | error e =>
          simp only [hcc] at h
          exact Except.noConfusion h
        | ok u3 =>
          simp only [hcc] at h
          cases hcf : checkFieldNames name ha.fieldNames ha.dataLabels with
          | error e =>
            simp only [hcf] at h
            exact Except.noConfusion h
          | ok u4 =>
            simp only [hcf] at h
            injection h with h2
            refine ⟨?_, ?_, ?_, ?_, ?_⟩ <;> rw [← h2]

theorem mkWorksheet_ok_inv (name : PyStr) (h : HeaderRows) (rows : List (List CellVal))
    (ws : Worksheet) (hm : mkWorksheet name h rows = .ok ws) :
    needGenerateKeysOf ws.fieldNames ws.dataTypes ws.dataLabels = .ok ws.needGenerateKeys ∧
    ws.compositeKeys = (detectComposite ws.fieldNames ws.dataTypes).1 := by
  unfold mkWorksheet at hm
  cases hst : headerStage name h with
  | error e =>
    simp only [hst] at hm
    exact Except.noConfusion hm
  | ok ha =>
    simp only [hst] at hm
    obtain ⟨hf, ht, hl, hn, hcb⟩ := schemaStage2_ok_inv name ha rows ws hm
    rw [hf, ht, hl]
    exact ⟨hn, hcb⟩

theorem detectComposite_true_iff (fn dt : List CellVal) :
    (detectComposite fn dt).1 = true ↔
      (2 < fn.length ∧ ∃ f1 f2 r1 r2 dt1 dt2,
        fn.getD 1 .none = .str f1 ∧ fn.getD 2 .none = .str f2 ∧
        matchKeyTag (pystr "key1") f1 = some r1 ∧ matchKeyTag (pystr "key2") f2 = some r2 ∧
        r1 ≠ [] ∧ r2 ≠ [] ∧
        dt.getD 1 .none = .str dt1 ∧ dt.getD 2 .none = .str dt2 ∧
        containsSub (pystr "int") (lowerStr (pyStrip dt1)) = true ∧
        containsSub (pystr "int") (lowerStr (pyStrip dt2)) = true) := by
  constructor
  · intro hc
    unfold detectComposite at hc
    by_cases hl : fn.length ≤ 2
    · rw [if_pos hl] at hc
      exact absurd hc (by simp)
    · rw [if_neg hl] at hc
      cases hf1 : fn.getD 1 CellVal.none with
      | str f1 =>
        rw [hf1] at hc
        cases hf2 : fn.getD 2 CellVal.none with
        | str f2 =>
          rw [hf2] at hc
          simp only at hc
          cases hm1 : matchKeyTag (pystr "key1") f1 with
          | some r1 =>
            rw [hm1] at hc
            cases hm2 : matchKeyTag (pystr "key2") f2 with
            | some r2 =>
              rw [hm2] at hc
              simp only at hc
              cases hd1 : dt.getD 1 CellVal.none with
              | str dt1 =>
                rw [hd1] at hc
                cases hd2 : dt.getD 2 CellVal.none with
                | str dt2 =>
                  rw [hd2] at hc
                  simp only at hc
                  by_cases hints : containsSub (pystr "int") (lowerStr (pyStrip dt1)) = true
                      ∧ containsSub (pystr "int") (lowerStr (pyStrip dt2)) = true
                  · rw [if_pos hints] at hc
                    by_cases hne : ¬ r1 = [] ∧ ¬ r2 = []
                    · exact ⟨by omega, f1, f2, r1, r2, dt1, dt2, rfl, rfl, hm1, hm2,
                        hne.1, hne.2, rfl, rfl, hints.1, hints.2⟩
                    · rw [if_neg hne] at hc
                      exact absurd hc (by simp)
                  · rw [if_neg hints] at hc
                    exact absurd hc (by simp)
                | none => rw [hd2] at hc; simp at hc
                | int n => rw [hd2] at hc; simp at hc
                | float q => rw [hd2] at hc; simp at hc
                | bool b => rw [hd2] at hc; simp at hc
              | none => rw [hd1] at hc; simp at hc
              | int n => rw [hd1] at hc; simp at hc
              | float q => rw [hd1] at hc; simp at hc
              | bool b => rw [hd1] at hc; simp at hc
            | none => rw [hm2] at hc; simp at hc
          | none => rw [hm1] at hc; simp at hc
        | none => rw [hf2] at hc; simp at hc
        | int n => rw [hf2] at hc; simp at hc
        | float q => rw [hf2] at hc; simp at hc
        | bool b => rw [hf2] at hc; simp at hc
      | none => rw [hf1] at hc; simp at hc
      | int n => rw [hf1] at hc; simp at hc
      | float q => rw [hf1] at hc; simp at hc
      | bool b => rw [hf1] at hc; simp at hc
  · rintro ⟨hl, f1, f2, r1, r2, dt1, dt2, hf1, hf2, hm1, hm2, hr1, hr2, hd1, hd2, hi1, hi2⟩
    unfold detectComposite
    rw [if_neg (by omega)]
    simp only [hf1, hf2, hm1, hm2, hd1, hd2]
    rw [if_pos ⟨hi1, hi2⟩, if_pos ⟨hr1, hr2⟩]

theorem propsGo_head_stable (fn dt : List CellVal) :
    ∀ (idxs : List ℕ) (acc : List (PyStr × PyStr)) (a : PyStr × PyStr)
      (res : List (PyStr × PyStr)),
      acc.head? = some a → (∀ i ∈ idxs, actualFieldName fn i ≠ a.1) →
      propsGo fn dt idxs acc = .ok res → res.head? = some a := by
  intro idxs
  induction idxs with
  | nil =>
    intro acc a res hh _ hp
    injection hp with h2
    rw [← h2]
    exact hh
  | cons i rest ih =>
    intro acc a res hh hfresh hp
    unfold propsGo at hp
    cases hc : csharpTypeOf (dt.getD i .none) with
    | error e =>
      rw [hc] at hp
      exact Except.noConfusion hp
    | ok t =>
      rw [hc] at hp
      obtain ⟨w, hw, hwe⟩ := dictInsert_head acc (actualFieldName fn i) t a hh
      have hne : a.1 ≠ actualFieldName fn i :=
        fun hq => hfresh i (List.mem_cons_self i rest) hq.symm
      rw [hwe hne] at hw
      exact ih _ a res hw (fun j hj => hfresh j (List.mem_cons_of_mem i hj)) hp

theorem needGenerateKeysOf_true_iff (fn dt dl : List CellVal) (b : Bool)
    (hnd : ((effectiveIndices fn dl).map (actualFieldName fn)).Nodup)
    (hok : needGenerateKeysOf fn dt dl = .ok b) :
    (b = true ↔ ∃ i, (effectiveIndices fn dl).head? = some i ∧
      csharpTypeOf (dt.getD i .none) = .ok (pystr "string")) := by
  unfold needGenerateKeysOf propertiesDict at hok
  cases hidx : effectiveIndices fn dl with
  | nil =>
    rw [hidx] at hok
    simp only [propsGo] at hok
    injection hok with h2
    constructor
    · intro hb
      rw [← h2] at hb
      exact absurd hb (by simp)
    · rintro ⟨i, hi, _⟩
      exact absurd hi (by simp)
  | cons i0 rest =>
    rw [hidx] at hok
    rw [hidx] at hnd
    unfold propsGo at hok
    cases hc : csharpTypeOf (dt.getD i0 .none) with
    | error e =>
      rw [hc] at hok
      exact absurd hok (by simp)
    | ok t =>
      rw [hc] at hok
      simp only at hok
      cases hp : propsGo fn dt rest (dictInsert [] (actualFieldName fn i0) t) with
      | error e =>
        rw [hp] at hok
        exact absurd hok (by simp)
      | ok pd =>
        rw [hp] at hok
        have hfresh : ∀ j ∈ rest, actualFieldName fn j ≠ actualFieldName fn i0 := by
          intro j hj hq
          simp only [List.map_cons, List.nodup_cons, List.mem_map] at hnd
          exact hnd.1 ⟨j, hj, hq⟩
        have hhead : pd.head? = some (actualFieldName fn i0, t) :=
          propsGo_head_stable fn dt rest _ _ _ (by simp [dictInsert]) hfresh hp
        injection hok with h2
        rw [← h2]
        constructor
        · intro hb
          refine ⟨i0, rfl, ?_⟩
          rw [hhead] at hb
          simp at hb
          rw [hc, hb]
        · rintro ⟨i, hi, hcs⟩
          injection hi with hi0
          rw [← hi0] at hcs
          rw [hc] at hcs
          injection hcs with ht
          rw [hhead]
          simp [ht]

/-- C3 counterexample: all six header rows are non-empty, only the remark row
length (1) disagrees with the field-name row length (2), and schema build
nevertheless raises HeaderFormatError instead of padding with a warning. -/
theorem C3_counterexample :
    ([[CellVal.none], [CellVal.none, CellVal.none],
      [CellVal.str (pystr "int"), CellVal.str (pystr "int")],
      [CellVal.none, CellVal.none],
      [CellVal.str (pystr "id"), CellVal.str (pystr "a")],
      [CellVal.none, CellVal.none]].all (fun row => decide (row ≠ [])) = true)
    ∧ mkWorksheet (pystr "T")
        ⟨[CellVal.none], [CellVal.none, CellVal.none],
         [CellVal.str (pystr "int"), CellVal.str (pystr "int")],
         [CellVal.none, CellVal.none],
         [CellVal.str (pystr "id"), CellVal.str (pystr "a")],
         [CellVal.none, CellVal.none]⟩ [] =
      .error (.headerFormat (pystr "T") (.lengthMismatch 1 1 2)) :=
  ⟨by decide, by rfl⟩

/-- C3 amended: schema build raises HeaderFormatError exactly when one of the
six header rows is empty or some row length disagrees with the field-name
row length; the pad-and-truncate alignment never runs on a misaligned sheet
(the strict length check fires first), so a length mismatch is fatal, not a
recoverable warning. -/
theorem C3_header_error_iff (name : PyStr) (h : HeaderRows) (rows : List (List CellVal)) :
    (∃ s r, mkWorksheet name h rows = .error (.headerFormat s r)) ↔
      (h.remarks = [] ∨ h.headers = [] ∨ h.dataTypes = [] ∨ h.dataLabels = [] ∨
       h.fieldNames = [] ∨ h.defaultValues = [] ∨
       h.remarks.length ≠ h.fieldNames.length ∨ h.headers.length ≠ h.fieldNames.length ∨
       h.dataTypes.length ≠ h.fieldNames.length ∨ h.dataLabels.length ≠ h.fieldNames.length ∨
       h.defaultValues.length ≠ h.fieldNames.length) := by
  constructor
  · rintro ⟨s, r, hm⟩
    unfold mkWorksheet at hm
    cases hst : headerStage name h with
    | error e =>
      by_contra hnot
      push_neg at hnot
      obtain ⟨c1, c2, c3, c4, c5, c6, l1, l2, l3, l4, l6⟩ := hnot
      rw [headerStage_ok_of_conditions name h c1 c2 c3 c4 c5 c6 l1 l2 l3 l4 l6] at hst
      exact Except.noConfusion hst
    | ok ha =>
      simp only [hst] at hm
      exact absurd hm (schemaStage2_no_hf name ha rows s r)
  · intro hd
    rcases headerStage_cases name h with ⟨ha, hok⟩ | ⟨r, herr⟩
    · obtain ⟨c1, c2, c3, c4, c5, c6, l1, l2, l3, l4, l6⟩ := headerStage_ok_inv name h ha hok
      rcases hd with hc | hc | hc | hc | hc | hc | hc | hc | hc | hc | hc <;>
        first
          | exact absurd hc c1
          | exact absurd hc c2
          | exact absurd hc c3
          | exact absurd hc c4
          | exact absurd hc c5
          | exact absurd hc c6
          | exact absurd l1 hc
          | exact absurd l2 hc
          | exact absurd l3 hc
          | exact absurd l4 hc
          | exact absurd l6 hc
    · refine ⟨name, r, ?_⟩
      unfold mkWorksheet
      rw [herr]

/-- C2: for all composite-key pairs with both components in [0, MAX_KEY2),
the derived key key1 * MULTIPLIER + key2 is injective and strictly below
2 to the 31st, and the composite-key overflow failure branch of the row-key
derivation is unreachable on every input. -/
theorem C2_composite_key_injective_bounded
    (k1 k2 k1' k2' : ℤ)
    (hk1 : 0 ≤ k1 ∧ k1 < MAX_KEY2) (hk2 : 0 ≤ k2 ∧ k2 < MAX_KEY2)
    (hk1' : 0 ≤ k1' ∧ k1' < MAX_KEY2) (hk2' : 0 ≤ k2' ∧ k2' < MAX_KEY2) :
    (k1 * MULTIPLIER + k2 = k1' * MULTIPLIER + k2' → k1 = k1' ∧ k2 = k2')
    ∧ k1 * MULTIPLIER + k2 < 2 ^ 31
    ∧ ∀ (row : List CellVal) (excelRow : ℕ) (c : ℤ),
        compositeKeyOfRow row excelRow ≠ .error (.compositeKeyOverflow c) := by
  have e1 : MAX_KEY2 = 46340 := rfl
  have e2 : MULTIPLIER = 46340 := rfl
  rw [e1] at hk1 hk2 hk1' hk2'
  rw [e2]
  refine ⟨fun h => by omega, by omega, ?_⟩
  intro row excelRow c hcontra
  unfold compositeKeyOfRow at hcontra
  cases h0 : row.get? 0 <;> cases h1 : row.get? 1 <;>
    simp only [h0, h1] at hcontra <;>
    try (injection hcontra with h2; exact ExportErr.noConfusion h2)
  case some.some c1 c2 =>
    cases hp1 : pyInt c1 <;> cases hp2 : pyInt c2 <;>
      simp only [hp1, hp2] at hcontra <;>
      try (injection hcontra with h2; exact ExportErr.noConfusion h2)
    case ok.ok i1 i2 =>
      by_cases hr : 0 ≤ i1 ∧ i1 < MAX_KEY2 ∧ 0 ≤ i2 ∧ i2 < MAX_KEY2
      · rw [if_pos hr] at hcontra
        rw [e1] at hr
        have hlt : i1 * MULTIPLIER + i2 < 2 ^ 31 := by
          rw [e2]
          omega
        rw [if_neg (by omega)] at hcontra
        exact Except.noConfusion hcontra
      · rw [if_neg hr] at hcontra
        injection hcontra with h2
        exact ExportErr.noConfusion h2

/-- Witness for C2 at the concrete pair (1, 2). -/
theorem C2_witness :
    ((0 : ℤ) ≤ 1 ∧ (1 : ℤ) < MAX_KEY2) ∧
      (((1 : ℤ) * MULTIPLIER + 2 = 1 * MULTIPLIER + 2 → (1 : ℤ) = 1 ∧ (2 : ℤ) = 2)
       ∧ (1 : ℤ) * MULTIPLIER + 2 < 2 ^ 31
       ∧ ∀ (row : List CellVal) (excelRow : ℕ) (c : ℤ),
           compositeKeyOfRow row excelRow ≠ .error (.compositeKeyOverflow c)) :=
  ⟨by decide,
   C2_composite_key_injective_bounded 1 2 1 2 (by decide) (by decide) (by decide) (by decide)⟩

/-- C5: reference checking never aborts: run_reference_checks returns its log
list on every input, and an item whose target table is unavailable contributes
exactly one recoverable warning, no error, and is skipped. -/
theorem C5_reference_checks_never_fatal :
    (∀ (files : PyStr → Option (List (PyStr × JVal))) (pending : List RefItem),
      ∃ logs, runReferenceChecks files pending = .ok logs)
    ∧ (∀ (files : PyStr → Option (List (PyStr × JVal))) (item : RefItem),
        files item.refSheet = Option.none →
        checkItem files item =
          ([.warnMissingTarget item.excelRow item.fieldName item.refSheet item.refField],
           false)) := by
  constructor
  · intro files pending
    unfold runReferenceChecks
    by_cases hp : pending = []
    · rw [if_pos hp]
      exact ⟨[], rfl⟩
    · rw [if_neg hp]
      exact ⟨_, rfl⟩
  · intro files item hmiss
    unfold checkItem loadRefSet
    rw [hmiss]

/-- Witness for C5: a pending item whose target sheet has no exported JSON. -/
theorem C5_witness :
    checkItem (fun _ => Option.none)
        ⟨8, pystr "ref", pystr "Orders", Option.none, pystr "scalar",
         some (pystr "int"), .int 7⟩ =
      ([.warnMissingTarget 8 (pystr "ref") (pystr "Orders") Option.none], false) :=
  C5_reference_checks_never_fatal.2 (fun _ => Option.none)
    ⟨8, pystr "ref", pystr "Orders", Option.none, pystr "scalar",
     some (pystr "int"), .int 7⟩ rfl

/-- C8 counterexample: on the raw text 1,,2 under list(int) the code drops the
empty segment and yields [1, 2], while converting every trimmed segment as the
claim states it would fail on the empty segment; the two behaviours disagree. -/
theorem C8_counterexample :
    convert_list (pystr "list(int)") (.str (pystr "1,,2")) = .ok (.list [.int 1, .int 2])
    ∧ specListSplitConvert (pystr "int") (pystr "1,,2") = .error (.intParse (.str []))
    ∧ ∀ xs, specListSplitConvert (pystr "int") (pystr "1,,2") ≠ .ok xs := by
  have h2 : specListSplitConvert (pystr "int") (pystr "1,,2") =
      .error (.intParse (.str [])) := by rfl
  exact ⟨by rfl, h2, fun xs h => by rw [h2] at h; exact Except.noConfusion h⟩

/-- C8 amended: list conversion maps None to the empty list, splits a string
raw on commas dropping segments that are empty after trimming and converting
the remaining trimmed segments (so 1, 2,3 gives [1,2,3] and 1,,2 gives
[1,2]), and wraps a non-string raw as a single-element list of its converted
value. -/
theorem C8_list_conversion_amended :
    (∀ t : PyStr, convert_list t .none = .ok (.list []))
    ∧ convert_list (pystr "list(int)") (.str (pystr "1, 2,3")) =
        .ok (.list [.int 1, .int 2, .int 3])
    ∧ convert_list (pystr "list(int)") (.str (pystr "1,,2")) = .ok (.list [.int 1, .int 2])
    ∧ (∀ (t inner : PyStr) (v : CellVal) (x : JVal),
        extractParen t = some inner → v ≠ .none → (∀ s, v ≠ .str s) →
        elemConvOf (pyStrip inner) v = .ok x →
        convert_list t v = .ok (.list [x])) := by
  refine ⟨?_, by rfl, by rfl, ?_⟩
  · intro t
    unfold convert_list
    cases h : extractParen t <;> simp
  · intro t inner v x hp hv hs hconv
    unfold convert_list
    rw [hp]
    simp only [if_neg hv]
    cases v with
    | none => exact absurd rfl hv
    | str s => exact absurd rfl (hs s)
    | int n => rw [hconv]
    | float q => rw [hconv]
    | bool b => rw [hconv]

/-- Witness for C8 at the non-string raw 7 under list(int). -/
theorem C8_witness :
    convert_list (pystr "list(int)") (.int 7) = .ok (.list [.int 7]) :=
  C8_list_conversion_amended.2.2.2 (pystr "list(int)") (pystr "int") (.int 7) (.int 7)
    (by decide) (by decide) (fun s h => CellVal.noConfusion h) (by rfl)

/-- C9: dict conversion maps None to the empty mapping; a line without a colon
is skipped; a line splits at its first colon only; a repeated converted key
keeps its position and takes the last value (last write wins); insertion order
is preserved (an existing key keeps the key order, a fresh key is appended);
and the concrete multi-line example shows the pipeline end to end. -/
theorem C9_dict_conversion :
    (∀ t : PyStr, convert_dict t .none = .ok (.dict []))
    ∧ (∀ (kt vt : PyStr) (acc : List (JVal × JVal)) (line : PyStr),
        splitFirstChar ':' line = Option.none → processDictLine kt vt acc line = .ok acc)
    ∧ (∀ (a b : PyStr), ':' ∉ a → splitFirstChar ':' (a ++ ':' :: b) = some (a, b))
    ∧ (∀ (d : List (JVal × JVal)) (k v : JVal), assocLookup (dictInsert d k v) k = some v)
    ∧ (∀ (d : List (JVal × JVal)) (k v : JVal),
        (dictInsert d k v).map Prod.fst =
          if k ∈ d.map Prod.fst then d.map Prod.fst else d.map Prod.fst ++ [k])
    ∧ convert_dict (pystr "dict(int,string)") (.str (pystr "1:a\n2:b\nnope\n1:c")) =
        .ok (.dict [(.int 1, .str (pystr "c")), (.int 2, .str (pystr "b"))]) := by
  refine ⟨?_, ?_, ?_, ?_, ?_, by rfl⟩
  · intro t
    unfold convert_dict
    cases h : extractParen t <;> simp
  · intro kt vt acc line h
    unfold processDictLine
    rw [h]
  · intro a b
    induction a with
    | nil => intro _; rfl
    | cons c as ih =>
      intro hna
      simp only [List.mem_cons, not_or] at hna
      have hc : ¬ c = ':' := fun h => hna.1 h.symm
      have hstep : (c :: as) ++ ':' :: b = c :: (as ++ ':' :: b) := rfl
      rw [hstep]
      simp only [splitFirstChar, if_neg hc]
      rw [ih hna.2]
      rfl
  · exact fun d k v => assocLookup_dictInsert_self d k v
  · exact fun d k v => dictInsert_keys d k v

/-- Witness for C9: a first-colon split and a skipped colon-free line. -/
theorem C9_witness :
    splitFirstChar ':' (pystr "ab" ++ ':' :: pystr "cd") = some (pystr "ab", pystr "cd")
    ∧ processDictLine (pystr "int") (pystr "string") [] (pystr "nope") = .ok [] :=
  ⟨C9_dict_conversion.2.2.1 (pystr "ab") (pystr "cd") (by decide),
   C9_dict_conversion.2.1 (pystr "int") (pystr "string") [] (pystr "nope") (by decide)⟩

theorem pyCountInsert_miss (A : List (CellVal × ℕ)) (v : CellVal)
    (h : ∀ kc ∈ A, pyKey kc.1 ≠ pyKey v) :
    pyCountInsert A v = A ++ [(v, 1)] := by
  induction A with
  | nil => rfl
  | cons kc rest ih =>
    obtain ⟨k, c⟩ := kc
    have hk : pyEqB k v = false := by
      have := h (k, c) (List.mem_cons_self _ _)
      simpa [pyEqB] using this
    unfold pyCountInsert
    rw [hk]
    simp only [Bool.false_eq_true, if_false, List.cons_append]
    rw [ih (fun kc hm => h kc (List.mem_cons_of_mem _ hm))]

theorem pyCountInsert_hit (A : List (CellVal × ℕ)) (v : CellVal)
    (hnd : (A.map fun kc => pyKey kc.1).Nodup)
    (kc0 : CellVal × ℕ) (h0 : kc0 ∈ A) (hk0 : pyKey kc0.1 = pyKey v) :
    pyCountInsert A v =
      A.map (fun kc => if pyKey kc.1 = pyKey v then (kc.1, kc.2 + 1) else kc) := by
  induction A with
  | nil => exact absurd h0 (List.not_mem_nil _)
  | cons kc rest ih =>
    obtain ⟨k, c⟩ := kc
    simp only [List.map_cons, List.nodup_cons] at hnd
    by_cases hk : pyKey k = pyKey v
    · have hb : pyEqB k v = true := by simp [pyEqB, hk]
      unfold pyCountInsert
      rw [hb, if_pos rfl, List.map_cons, if_pos hk]
      have hfun : ∀ kc ∈ rest,
          (if pyKey kc.1 = pyKey v then (kc.1, kc.2 + 1) else kc) = kc := by
        intro kc hm
        rw [if_neg]
        intro he
        exact hnd.1 (List.mem_map.mpr ⟨kc, hm, by rw [he]; exact hk.symm⟩)
      rw [List.map_congr_left hfun]
      simp
    · have hb : pyEqB k v = false := by simp [pyEqB, hk]
      unfold pyCountInsert
      rw [hb]
      simp only [Bool.false_eq_true, if_false, List.map_cons]
      rw [if_neg hk]
      have h02 : kc0 ∈ rest := by
        rcases List.mem_cons.mp h0 with he | hm
        · exfalso
          apply hk
          rw [he] at hk0
          exact hk0
        · exact hm
      rw [ih hnd.2 h02]

theorem pyCounter_inv :
    ∀ (values L : List CellVal) (A : List (CellVal × ℕ)),
      ((A.map fun kc => pyKey kc.1).Nodup) →
      (∀ kc ∈ A, kc.2 = L.countP (fun u => pyKey u == pyKey kc.1)) →
      (∀ u ∈ L, ∃ kc ∈ A, pyKey kc.1 = pyKey u) →
      (((values.foldl pyCountInsert A).map fun kc => pyKey kc.1).Nodup) ∧
      (∀ kc ∈ values.foldl pyCountInsert A,
        kc.2 = (L ++ values).countP (fun u => pyKey u == pyKey kc.1)) ∧
      (∀ u ∈ L ++ values, ∃ kc ∈ values.foldl pyCountInsert A, pyKey kc.1 = pyKey u) := by
  intro values
  induction values with
  | nil =>
    intro L A h1 h2 h3
    simp only [List.foldl_nil, List.append_nil]
    exact ⟨h1, h2, h3⟩
  | cons v vs ih =>
    intro L A h1 h2 h3
    have hstep : ((pyCountInsert A v).map fun kc => pyKey kc.1).Nodup ∧
        (∀ kc ∈ pyCountInsert A v,
          kc.2 = (L ++ [v]).countP (fun u => pyKey u == pyKey kc.1)) ∧
        (∀ u ∈ L ++ [v], ∃ kc ∈ pyCountInsert A v, pyKey kc.1 = pyKey u) := by
      by_cases hhit : ∀ kc ∈ A, pyKey kc.1 ≠ pyKey v
      · rw [pyCountInsert_miss A v hhit]
        refine ⟨?_, ?_, ?_⟩
        · rw [List.map_append]
          rw [List.nodup_append]
          refine ⟨h1, by simp, ?_⟩
          intro a ha hb
          simp only [List.map_cons, List.map_nil, List.mem_singleton] at hb
          obtain ⟨kc, hm, hkey⟩ := List.mem_map.mp ha
          exact hhit kc hm (by rw [hkey, hb])
        · intro kc hm
          rw [List.countP_append]
          rcases List.mem_append.mp hm with hA | hv
          · have hvz : [v].countP (fun u => pyKey u == pyKey kc.1) = 0 := by
              apply List.countP_eq_zero.mpr
              intro u hu
              rw [List.mem_singleton] at hu
              rw [hu]
              simp only [beq_iff_eq]
              exact fun he => hhit kc hA he.symm
            rw [hvz, Nat.add_zero]
            exact h2 kc hA
          · rw [List.mem_singleton] at hv
            rw [hv]
            have hLz : L.countP (fun u => pyKey u == pyKey v) = 0 := by
              apply List.countP_eq_zero.mpr
              intro u hu hbe
              obtain ⟨kc2, hm2, hkey2⟩ := h3 u hu
              exact hhit kc2 hm2 (by rw [hkey2]; exact eq_of_beq hbe)
            simp [hLz]
        · intro u hu
          rcases List.mem_append.mp hu with hL | hv
          · obtain ⟨kc, hm, hkey⟩ := h3 u hL
            exact ⟨kc, List.mem_append_left _ hm, hkey⟩
          · rw [List.mem_singleton] at hv
            refine ⟨(v, 1), List.mem_append_right _ (by simp), ?_⟩
            rw [hv]
      · push_neg at hhit
        obtain ⟨kc0, h0, hk0⟩ := hhit
        rw [pyCountInsert_hit A v h1 kc0 h0 hk0]
        have hkeys : ((A.map fun kc =>
            if pyKey kc.1 = pyKey v then (kc.1, kc.2 + 1) else kc).map
              fun kc => pyKey kc.1) = A.map fun kc => pyKey kc.1 := by
          rw [List.map_map]
          apply List.map_congr_left
          intro kc _
          by_cases hc : pyKey kc.1 = pyKey v <;> simp [Function.comp, hc]
        refine ⟨by rw [hkeys]; exact h1, ?_, ?_⟩
        · intro kc hm
          obtain ⟨kc2, hm2, hkc2⟩ := List.mem_map.mp hm
          rw [List.countP_append]
          by_cases hc : pyKey kc2.1 = pyKey v
          · rw [if_pos hc] at hkc2
            rw [← hkc2]
            have hone : [v].countP (fun u => pyKey u == pyKey (kc2.1, kc2.2 + 1).1) = 1 := by
              simp [beq_iff_eq, hc.symm]
            rw [hone]
            have := h2 kc2 hm2
            simp only at this ⊢
            omega
          · rw [if_neg hc] at hkc2
            rw [← hkc2]
            have hz : [v].countP (fun u => pyKey u == pyKey kc2.1) = 0 := by
              simp [beq_eq_false_iff_ne]
              intro he
              exact hc he.symm
            rw [hz, Nat.add_zero]
            exact h2 kc2 hm2
        · intro u hu
          rcases List.mem_append.mp hu with hL | hv
          · obtain ⟨kc, hm, hkey⟩ := h3 u hL
            refine ⟨if pyKey kc.1 = pyKey v then (kc.1, kc.2 + 1) else kc,
              List.mem_map.mpr ⟨kc, hm, rfl⟩, ?_⟩
            by_cases hc : pyKey kc.1 = pyKey v
            · rw [if_pos hc]
              exact hkey
            · rw [if_neg hc]
              exact hkey
          · rw [List.mem_singleton] at hv
            refine ⟨if pyKey kc0.1 = pyKey v then (kc0.1, kc0.2 + 1) else kc0,
              List.mem_map.mpr ⟨kc0, h0, rfl⟩, ?_⟩
            rw [if_pos hk0]
            rw [hv]
            exact hk0
    have hmain := ih (L ++ [v]) (pyCountInsert A v) hstep.1 hstep.2.1 hstep.2.2
    simpa [List.append_assoc] using hmain

theorem pyCounter_spec (values : List CellVal) :
    (((pyCounter values).map fun kc => pyKey kc.1).Nodup) ∧
    (∀ kc ∈ pyCounter values, kc.2 = values.countP (fun u => pyKey u == pyKey kc.1)) ∧
    (∀ u ∈ values, ∃ kc ∈ pyCounter values, pyKey kc.1 = pyKey u) := by
  have h := pyCounter_inv values [] []
    (by simp) (by intro kc hm; exact absurd hm (List.not_mem_nil _))
    (by intro u hu; exact absurd hu (List.not_mem_nil _))
  simp only [List.nil_append] at h
  exact h

theorem pairwise_iff_countP_le_one (values : List CellVal) :
    values.Pairwise (fun a b => pyEqB a b = false) ↔
      ∀ w, values.countP (fun u => pyKey u == pyKey w) ≤ 1 := by
  induction values with
  | nil => simp
  | cons v vs ih =>
    rw [List.pairwise_cons]
    constructor
    · rintro ⟨hv, hvs⟩ w
      rw [List.countP_cons]
      by_cases hw : pyKey v = pyKey w
      · have h0 : vs.countP (fun u => pyKey u == pyKey w) = 0 := by
          apply List.countP_eq_zero.mpr
          intro u hu
          simp only [beq_iff_eq]
          intro he
          have := hv u hu
          rw [pyEqB, beq_eq_false_iff_ne] at this
          exact this (by rw [hw, ← he])
        rw [h0]
        simp [beq_iff_eq, hw]
      · have := ih.mp hvs w
        simp [beq_iff_eq, hw]
        omega
    · intro hall
      refine ⟨?_, ih.mpr fun w => ?_⟩
      · intro u hu
        rw [pyEqB, beq_eq_false_iff_ne]
        intro he
        have h2 := hall v
        rw [List.countP_cons] at h2
        have hpos : 0 < vs.countP (fun u2 => pyKey u2 == pyKey v) :=
          List.countP_pos.mpr ⟨u, hu, by simp [beq_iff_eq, he.symm]⟩
        rw [if_pos (beq_self_eq_true (pyKey v))] at h2
        omega
      · have h2 := hall w
        rw [List.countP_cons] at h2
        omega

theorem counter_le_one_iff (values : List CellVal) :
    (∀ kc ∈ pyCounter values, kc.2 ≤ 1) ↔
      ∀ w, values.countP (fun u => pyKey u == pyKey w) ≤ 1 := by
  obtain ⟨hnd, hcnt, hcov⟩ := pyCounter_spec values
  constructor
  · intro hall w
    by_contra hgt
    push_neg at hgt
    have hpos : 0 < values.countP (fun u => pyKey u == pyKey w) := by omega
    obtain ⟨u, hu, hpu⟩ := List.countP_pos.mp hpos
    obtain ⟨kc, hkc, hkey⟩ := hcov u hu
    have h2 := hcnt kc hkc
    have hkey2 : pyKey kc.1 = pyKey w := by
      rw [hkey]
      exact eq_of_beq hpu
    rw [hkey2] at h2
    have := hall kc hkc
    omega
  · intro hall kc hkc
    rw [hcnt kc hkc]
    exact hall kc.1

theorem check_repeating_ok_iff (values : List CellVal) :
    check_repeating_values values = .ok () ↔
      values.Pairwise (fun a b => pyEqB a b = false) := by
  rw [pairwise_iff_countP_le_one, ← counter_le_one_iff]
  unfold check_repeating_values
  by_cases hd : repeatedVals values = []
  · rw [if_pos hd]
    unfold repeatedVals at hd
    rw [List.map_eq_nil, List.filter_eq_nil_iff] at hd
    constructor
    · intro _ kc hkc
      have := hd kc hkc
      simp at this
      omega
    · intro _
      rfl
  · rw [if_neg hd]
    constructor
    · intro hcon
      by_cases hs : pySortOk (repeatedVals values) = true
      · rw [if_pos hs] at hcon
        exact Except.noConfusion hcon
      · rw [if_neg hs] at hcon
        exact Except.noConfusion hcon
    · intro hall
      exfalso
      apply hd
      unfold repeatedVals
      rw [List.map_eq_nil, List.filter_eq_nil_iff]
      intro kc hkc
      have := hall kc hkc
      simp
      omega

/-- C10 counterexample: on the field-name row None, None, a, a — squarely a
row with repeated values, blanks included — the duplicate set mixes a string
with None, so the DuplicateFieldError constructor's sorted() call raises
TypeError and schema build does not fail with DuplicateFieldError; and the
row 1, True is free of structural repetition yet fails with
DuplicateFieldError because Python equality merges True with 1. -/
theorem C10_counterexample :
    check_repeating_values
        [CellVal.none, CellVal.none, .str (pystr "a"), .str (pystr "a")] =
      .error (.runtimeErr .sortedTypeErr) ∧
    [CellVal.int 1, CellVal.bool true].Nodup ∧
    check_repeating_values [CellVal.int 1, CellVal.bool true] =
      .error (.duplicateField [CellVal.int 1]) :=
  ⟨by rfl, by decide, by rfl⟩

/-- C10 (amended): the duplicate-field check passes exactly when no two
cells of the full field-name row (key column, ignored columns and blank
cells included) are equal in Python's sense, which identifies True with 1
and 1.0; when some value repeats, the check raises DuplicateFieldError
carrying the ascending sort of the first-seen representatives of the
repeated values — unless those representatives mix comparability classes
(numbers, strings, None), in which case the constructor's sorted() call
itself escapes with TypeError; schema build propagates whichever error the
check raises whenever the header stage passes. -/
theorem C10_duplicate_field_amended :
    (∀ values : List CellVal,
      (check_repeating_values values = .ok () ↔
        values.Pairwise (fun a b => pyEqB a b = false)))
    ∧ (∀ values : List CellVal,
        ¬ values.Pairwise (fun a b => pyEqB a b = false) →
        repeatedVals values ≠ [] ∧
        check_repeating_values values =
          (if pySortOk (repeatedVals values) then
            .error (.duplicateField (sortCells (repeatedVals values)))
          else .error (.runtimeErr .sortedTypeErr)))
    ∧ (∀ (name : PyStr) (h : HeaderRows) (ha : HeaderRows) (rows : List (List CellVal)),
        headerStage name h = .ok ha →
        ¬ ha.fieldNames.Pairwise (fun a b => pyEqB a b = false) →
        ∃ e, check_repeating_values ha.fieldNames = .error e ∧
          mkWorksheet name h rows = .error e) := by
  have p2 : ∀ values : List CellVal,
      ¬ values.Pairwise (fun a b => pyEqB a b = false) →
      repeatedVals values ≠ [] ∧
      check_repeating_values values =
        (if pySortOk (repeatedVals values) then
          .error (.duplicateField (sortCells (repeatedVals values)))
        else .error (.runtimeErr .sortedTypeErr)) := by
    intro values hnp
    have hd : repeatedVals values ≠ [] := by
      intro hd
      apply hnp
      rw [← check_repeating_ok_iff]
      unfold check_repeating_values
      rw [if_pos hd]
    refine ⟨hd, ?_⟩
    unfold check_repeating_values
    rw [if_neg hd]
  refine ⟨check_repeating_ok_iff, p2, ?_⟩
  intro name h ha rows hstage hnp
  obtain ⟨hd, hcheq⟩ := p2 ha.fieldNames hnp
  have hm : mkWorksheet name h rows = schemaStage2 name ha rows := by
    unfold mkWorksheet
    rw [hstage]
  by_cases hs : pySortOk (repeatedVals ha.fieldNames) = true
  · rw [if_pos hs] at hcheq
    refine ⟨.duplicateField (sortCells (repeatedVals ha.fieldNames)), hcheq, ?_⟩
    rw [hm]
    unfold schemaStage2
    rw [hcheq]
  · rw [if_neg hs] at hcheq
    refine ⟨.runtimeErr .sortedTypeErr, hcheq, ?_⟩
    rw [hm]
    unfold schemaStage2
    rw [hcheq]

/-- Witness for C10: two blank (None) field-name cells, one of them ignored,
abort the table; the single duplicated value None sorts trivially, so the
error is DuplicateFieldError listing None. -/
theorem C10_witness :
    ∃ e, check_repeating_values [CellVal.none, .str (pystr "a"), CellVal.none] =
        .error e ∧
      mkWorksheet (pystr "T")
        ⟨[.none, .none, .none], [.none, .none, .none],
         [.none, .str (pystr "int"), .none],
         [.none, .none, .str (pystr "ignore")],
         [.none, .str (pystr "a"), .none],
         [.none, .none, .none]⟩ [] = .error e :=
  C10_duplicate_field_amended.2.2 (pystr "T")
    ⟨[.none, .none, .none], [.none, .none, .none],
     [.none, .str (pystr "int"), .none],
     [.none, .none, .str (pystr "ignore")],
     [.none, .str (pystr "a"), .none],
     [.none, .none, .none]⟩
    ⟨[.none, .none, .none], [.none, .none, .none],
     [.none, .str (pystr "int"), .none],
     [.none, .none, .str (pystr "ignore")],
     [.none, .str (pystr "a"), .none],
     [.none, .none, .none]⟩
    [] (by rfl) (by decide)

/-- C6: an empty required cell with no default fails record building with the
required-field error naming the actual field and the row; an empty cell with
a default (required or not) stores the default converted under the column's
type annotation; the column loop fails exactly on the first such offending
column and succeeds otherwise. -/
theorem C6_required_field_handling :
    (∀ (ws : Worksheet) (ci er : ℕ),
        ws.dataLabels.getD ci .none = .str (pystr "required") →
        ws.defaultValues.getD ci .none = .none →
        processCell ws ci er .none =
          .error (.requiredMissing (actualFieldName ws.fieldNames ci) er))
    ∧ (∀ (ws : Worksheet) (ci er : ℕ) (d : CellVal) (v : JVal),
        ws.defaultValues.getD ci .none = d → d ≠ .none →
        convert_to_type (ws.dataTypes.getD ci .none) d = .ok v →
        processCell ws ci er .none = .ok v)
    ∧ (∀ (ws : Worksheet) (er : ℕ) (row : List CellVal) (init : List (PyStr × JVal)) (j : ℕ),
        reqOffendAt ws 1 row j → (∀ j' < j, ¬ reqOffendAt ws 1 row j') →
        buildCols ws er 1 row init =
          .error (.requiredMissing (actualFieldName ws.fieldNames (1 + j)) er))
    ∧ (∀ (ws : Worksheet) (er : ℕ) (row : List CellVal) (init : List (PyStr × JVal)),
        (∀ j, ¬ reqOffendAt ws 1 row j) →
        ∃ obj, buildCols ws er 1 row init = .ok obj) := by
  refine ⟨?_, ?_, ?_, ?_⟩
  · intro ws ci er hreq hdef
    unfold processCell
    rw [if_pos rfl, if_pos ⟨hdef, hreq⟩]
  · intro ws ci er d v hd hne hconv
    unfold processCell
    rw [if_pos rfl, hd]
    have hcond : ¬ (d = .none ∧ ws.dataLabels.getD ci .none = .str (pystr "required")) :=
      fun hc => hne hc.1
    rw [if_neg hcond, hconv]
  · exact fun ws er row init j => buildCols_error_least ws er row 1 init j
  · exact fun ws er row init => buildCols_ok_of_no_offend ws er row 1 init

/-- Witness for C6: a required empty cell with no default fails naming the
field, and the same empty cell with default text 9 stores the converted 9. -/
theorem C6_witness :
    processCell
        ⟨pystr "T", [.none, .none, .none], [.none, .none, .none],
         [.none, .str (pystr "int"), .str (pystr "int")],
         [.none, .none, .str (pystr "required")],
         [.none, .str (pystr "id"), .str (pystr "val")],
         [.none, .none, .none], [], false, false, [], []⟩ 2 7 .none =
      .error (.requiredMissing
        (actualFieldName [.none, .str (pystr "id"), .str (pystr "val")] 2) 7)
    ∧ processCell
        ⟨pystr "T", [.none, .none, .none], [.none, .none, .none],
         [.none, .str (pystr "int"), .str (pystr "int")],
         [.none, .none, .str (pystr "required")],
         [.none, .str (pystr "id"), .str (pystr "val")],
         [.none, .none, .str (pystr "9")], [], false, false, [], []⟩ 2 7 .none =
      .ok (.int 9) :=
  ⟨C6_required_field_handling.1 _ 2 7 rfl rfl,
   C6_required_field_handling.2.1 _ 2 7 (.str (pystr "9")) (.int 9) rfl (by decide) (by rfl)⟩

/-- C1 counterexample: on a sheet whose column 0 has resolved type
Primitive(string) but whose first effective column (index 1) has type int,
the spec's three-step algorithm picks StringEnum while the schema build,
which never consults column 0, yields a worksheet whose dispatch policy is
SingleInt. -/
theorem C1_counterexample :
    specDetectPolicy hdrC1 = .stringEnum ∧
    mkWorksheet (pystr "S") hdrC1 [] = .ok wsC1 ∧
    keyPolicyOf wsC1 = .singleInt ∧
    KeyPolicy.stringEnum ≠ KeyPolicy.singleInt :=
  ⟨by decide, by rfl, by decide, by decide⟩

/-- C1 (amended): for every worksheet produced by the schema build, and
provided the prefix-stripped names of the effective columns are distinct,
(1) the StringEnum policy holds iff the FIRST EFFECTIVE column — the first
non-ignored column of index at least 1, never column 0 — has C#-converted
type text string; (2) the CompositeInt flag holds iff the sheet has more
than two columns, the field names at indices 1 and 2 match the key1:/key2:
tag patterns with non-empty real names, and the type cells there are strings
whose stripped lower-cased text merely CONTAINS int as a substring; and
(3) record building derives keys by dispatching on exactly this policy in
the precedence order generated-serial, composite, single-int. -/
theorem C1_policy_detection_amended (name : PyStr) (h : HeaderRows)
    (rows : List (List CellVal)) (ws : Worksheet)
    (hm : mkWorksheet name h rows = .ok ws)
    (hnd : ((effectiveIndices ws.fieldNames ws.dataLabels).map
        (actualFieldName ws.fieldNames)).Nodup) :
    (ws.needGenerateKeys = true ↔
      ∃ i, (effectiveIndices ws.fieldNames ws.dataLabels).head? = some i ∧
        csharpTypeOf (ws.dataTypes.getD i .none) = .ok (pystr "string")) ∧
    (ws.compositeKeys = true ↔
      (2 < ws.fieldNames.length ∧ ∃ f1 f2 r1 r2 dt1 dt2,
        ws.fieldNames.getD 1 .none = .str f1 ∧ ws.fieldNames.getD 2 .none = .str f2 ∧
        matchKeyTag (pystr "key1") f1 = some r1 ∧ matchKeyTag (pystr "key2") f2 = some r2 ∧
        r1 ≠ [] ∧ r2 ≠ [] ∧
        ws.dataTypes.getD 1 .none = .str dt1 ∧ ws.dataTypes.getD 2 .none = .str dt2 ∧
        containsSub (pystr "int") (lowerStr (pyStrip dt1)) = true ∧
        containsSub (pystr "int") (lowerStr (pyStrip dt2)) = true)) ∧
    (∀ (row : List CellVal) (er serial : ℕ),
      rowKeySel ws row er serial =
        match keyPolicyOf ws with
        | .stringEnum => .ok (serial : ℤ)
        | .compositeInt => compositeKeyOfRow row er
        | .singleInt => singleKeyOfRow row er) := by
  obtain ⟨hn, hcb⟩ := mkWorksheet_ok_inv name h rows ws hm
  refine ⟨?_, ?_, ?_⟩
  · exact needGenerateKeysOf_true_iff ws.fieldNames ws.dataTypes ws.dataLabels
      ws.needGenerateKeys hnd hn
  · rw [hcb]
    exact detectComposite_true_iff ws.fieldNames ws.dataTypes
  · intro row er serial
    cases hg : ws.needGenerateKeys <;> cases hc : ws.compositeKeys <;>
      simp [rowKeySel, keyPolicyOf, hg, hc]

/-- Witness for C1: the amended theorem applied to the concrete sheet hdrC1,
whose dispatch equation it instantiates at a one-cell row. -/
theorem C1_witness :
    rowKeySel wsC1 [CellVal.int 5] 7 0 =
      (match keyPolicyOf wsC1 with
       | .stringEnum => Except.ok (0 : ℤ)
       | .compositeInt => compositeKeyOfRow [CellVal.int 5] 7
       | .singleInt => singleKeyOfRow [CellVal.int 5] 7) :=
  (C1_policy_detection_amended (pystr "S") hdrC1 [] wsC1 (by rfl)
    (by decide)).2.2 [CellVal.int 5] 7 0

theorem buildCols_head_keep (ws : Worksheet) (hni : NoIdCol ws) (er : ℕ) (v0 : JVal) :
    ∀ (cells : List CellVal) (ci : ℕ) (obj out : List (PyStr × JVal)),
      1 ≤ ci → obj.head? = some (pystr "id", v0) →
      buildCols ws er ci cells obj = .ok out → out.head? = some (pystr "id", v0) := by
  intro cells
  induction cells with
  | nil =>
    intro ci obj out _ hh hb
    injection hb with h2
    rw [← h2]
    exact hh
  | cons cell rest ih =>
    intro ci obj out hci hh hb
    unfold buildCols at hb
    by_cases h1 : ws.fieldNames.length ≤ ci
    · rw [if_pos h1] at hb
      exact ih (ci + 1) obj out (by omega) hh hb
    · rw [if_neg h1] at hb
      by_cases h2 : ws.dataLabels.getD ci .none = .str (pystr "ignore")
      · rw [if_pos h2] at hb
        exact ih (ci + 1) obj out (by omega) hh hb
      · rw [if_neg h2] at hb
        cases hpc : processCell ws ci er cell with
        | error e =>
          rw [hpc] at hb
          exact Except.noConfusion hb
        | ok v =>
          rw [hpc] at hb
          have hne : actualFieldName ws.fieldNames ci ≠ pystr "id" :=
            hni ci (List.mem_range.mpr (by omega)) (by omega) h2
          obtain ⟨w, hw, hwe⟩ :=
            dictInsert_head obj (actualFieldName ws.fieldNames ci) v (pystr "id", v0) hh
          rw [hwe (fun hq => hne hq.symm)] at hw
          exact ih (ci + 1) _ out (by omega) hw hb

theorem buildCols_no_id (ws : Worksheet) (hni : NoIdCol ws) (er : ℕ) :
    ∀ (cells : List CellVal) (ci : ℕ) (obj out : List (PyStr × JVal)),
      1 ≤ ci → assocLookup obj (pystr "id") = Option.none →
      buildCols ws er ci cells obj = .ok out →
      assocLookup out (pystr "id") = Option.none := by
  intro cells
  induction cells with
  | nil =>
    intro ci obj out _ hh hb
    injection hb with h2
    rw [← h2]
    exact hh
  | cons cell rest ih =>
    intro ci obj out hci hh hb
    unfold buildCols at hb
    by_cases h1 : ws.fieldNames.length ≤ ci
    · rw [if_pos h1] at hb
      exact ih (ci + 1) obj out (by omega) hh hb
    · rw [if_neg h1] at hb
      by_cases h2 : ws.dataLabels.getD ci .none = .str (pystr "ignore")
      · rw [if_pos h2] at hb
        exact ih (ci + 1) obj out (by omega) hh hb
      · rw [if_neg h2] at hb
        cases hpc : processCell ws ci er cell with
        | error e =>
          rw [hpc] at hb
          exact Except.noConfusion hb
        | ok v =>
          rw [hpc] at hb
          have hne : actualFieldName ws.fieldNames ci ≠ pystr "id" :=
            hni ci (List.mem_range.mpr (by omega)) (by omega) h2
          have hl : assocLookup (dictInsert obj (actualFieldName ws.fieldNames ci) v)
              (pystr "id") = Option.none := by
            rw [assocLookup_dictInsert_ne obj _ (pystr "id") v (fun hq => hne hq.symm)]
            exact hh
          exact ih (ci + 1) _ out (by omega) hl hb

theorem genRows_entries (ws : Worksheet) (idFirst : Bool)
    (P : ℤ → List (PyStr × JVal) → Prop)
    (hrec : ∀ (row : List CellVal) (rowIdx : ℕ) (rowKey : ℤ) (obj : List (PyStr × JVal)),
      buildCols ws (7 + rowIdx) 1 row
        (if idFirst then [(pystr "id", JVal.int rowKey)] else []) = .ok obj →
      P rowKey (if idFirst then obj else dictInsert obj (pystr "id") (JVal.int rowKey))) :
    ∀ (rows : List (List CellVal)) (rowIdx serial : ℕ) (used : List (ℤ × ℕ))
      (acc out : List (ℤ × List (PyStr × JVal))),
      (∀ k obj, (k, obj) ∈ acc → P k obj) →
      genRows ws idFirst rows rowIdx serial used acc = .ok out →
      ∀ k obj, (k, obj) ∈ out → P k obj := by
  intro rows
  induction rows with
  | nil =>
    intro rowIdx serial used acc out hacc hg
    injection hg with h2
    rw [h2] at hacc
    exact hacc
  | cons row rest ih =>
    intro rowIdx serial used acc out hacc hg
    unfold genRows at hg
    by_cases hre : row = []
    · rw [if_pos hre] at hg
      exact ih (rowIdx + 1) serial used acc out hacc hg
    · rw [if_neg hre] at hg
      simp only at hg
      cases hks : rowKeySel ws row (7 + rowIdx) serial with
      | error e =>
        rw [hks] at hg
        exact Except.noConfusion hg
      | ok rowKey =>
        rw [hks] at hg
        simp only at hg
        cases hlk : assocLookup used rowKey with
        | some firstRow =>
          rw [hlk] at hg
          exact Except.noConfusion hg
        | none =>
          rw [hlk] at hg
          simp only at hg
          cases hbc : buildCols ws (7 + rowIdx) 1 row
              (if idFirst then [(pystr "id", JVal.int rowKey)] else []) with
          | error e =>
            rw [hbc] at hg
            exact Except.noConfusion hg
          | ok obj =>
            rw [hbc] at hg
            simp only at hg
            refine ih (rowIdx + 1) _ _ _ out ?_ hg
            intro k o hmem
            rcases mem_dictInsert acc rowKey
                (if idFirst then obj else dictInsert obj (pystr "id") (JVal.int rowKey))
                (k, o) hmem with he | he
            · rw [Prod.mk.injEq] at he
              rw [he.1, he.2]
              exact hrec row rowIdx rowKey obj hbc
            · exact hacc k o he

/-- C7 counterexample: on the string-enum sheet wsC7 the single effective
column is itself named id, so the column loop overwrites the pre-inserted id
entry (dict assignment keeps its first position but replaces the value): the
only record's id field holds the cell text Foo, not the derived key 0. -/
theorem C7_counterexample :
    mkWorksheet (pystr "E") hdrC7 [[.str (pystr "Foo")]] = .ok wsC7 ∧
    generateJson wsC7 JSON_ID_FIRST =
      .ok [((0 : ℤ), [(pystr "id", JVal.str (pystr "Foo"))])] ∧
    assocLookup [(pystr "id", JVal.str (pystr "Foo"))] (pystr "id") ≠
      some (JVal.int 0) :=
  ⟨by rfl, by rfl, by decide⟩

/-- C7 (amended): provided no exported data column is itself named id, every
record of a successful export carries an id entry equal to its derived key:
with the id-first configuration it is the first entry of the record, and
otherwise it is the last entry.  (When a data column IS named id, the column
loop's dict assignment overwrites the pre-inserted value in the id-first
case, and in the id-last case the id entry keeps that column's position.) -/
theorem C7_id_field_amended (ws : Worksheet) (hni : NoIdCol ws) :
    (∀ out, generateJson ws true = .ok out →
      ∀ k obj, (k, obj) ∈ out → obj.head? = some (pystr "id", JVal.int k)) ∧
    (∀ out, generateJson ws false = .ok out →
      ∀ k obj, (k, obj) ∈ out →
        assocLookup obj (pystr "id") = some (JVal.int k) ∧
        obj.getLast? = some (pystr "id", JVal.int k)) := by
  constructor
  · intro out hg k obj hm
    refine genRows_entries ws true
      (fun k o => o.head? = some (pystr "id", JVal.int k)) ?_
      ws.rowData 0 0 [] [] out (fun k o h => absurd h (List.not_mem_nil _)) hg k obj hm
    intro row rowIdx rowKey obj2 hb
    simp only [if_pos] at hb ⊢
    exact buildCols_head_keep ws hni (7 + rowIdx) (JVal.int rowKey) row 1
      [(pystr "id", JVal.int rowKey)] obj2 (le_refl 1) rfl hb
  · intro out hg k obj hm
    refine genRows_entries ws false
      (fun k o => assocLookup o (pystr "id") = some (JVal.int k) ∧
        o.getLast? = some (pystr "id", JVal.int k)) ?_
      ws.rowData 0 0 [] [] out (fun k o h => absurd h (List.not_mem_nil _)) hg k obj hm
    intro row rowIdx rowKey obj2 hb
    simp only [Bool.false_eq_true, if_false] at hb ⊢
    have hno : assocLookup obj2 (pystr "id") = Option.none :=
      buildCols_no_id ws hni (7 + rowIdx) row 1 [] obj2 (le_refl 1) rfl hb
    have hfr := dictInsert_fresh obj2 (pystr "id") (JVal.int rowKey)
      ((assocLookup_none_iff obj2 (pystr "id")).mp hno)
    constructor
    · exact assocLookup_dictInsert_self obj2 (pystr "id") (JVal.int rowKey)
    · rw [hfr]
      exact getLast_append_single _ _

/-- Witness for C7: the amended theorem applied to the concrete id-free
single-int sheet ws7w, whose only record under the id-first configuration
starts with its key 3. -/
theorem C7_witness :
    NoIdCol ws7w ∧
    generateJson ws7w true =
      .ok [((3 : ℤ), [(pystr "id", JVal.int 3), (pystr "val", JVal.int 3)])] ∧
    [(pystr "id", JVal.int 3), (pystr "val", JVal.int 3)].head? =
      some (pystr "id", JVal.int 3) :=
  ⟨by decide, by rfl,
   (C7_id_field_amended ws7w (by decide)).1 _ (by rfl) 3 _
     (List.mem_singleton.mpr rfl)⟩

theorem serialBefore_zero (rows : List (List CellVal)) : serialBefore rows 0 = 0 := rfl

theorem serialBefore_cons_nonempty (row : List CellVal) (rest : List (List CellVal))
    (p : ℕ) (h : row ≠ []) :
    serialBefore (row :: rest) (p + 1) = serialBefore rest p + 1 := by
  unfold serialBefore
  rw [List.take_succ_cons, List.filter_cons]
  simp [h]

theorem serialBefore_cons_empty (row : List CellVal) (rest : List (List CellVal))
    (p : ℕ) (h : row = []) :
    serialBefore (row :: rest) (p + 1) = serialBefore rest p := by
  unfold serialBefore
  rw [List.take_succ_cons, List.filter_cons]
  simp [h]

theorem assocLookup_append {α β : Type} [DecidableEq α] (a b : List (α × β)) (k : α) :
    assocLookup (a ++ b) k =
      (match assocLookup a k with
       | some v => some v
       | Option.none => assocLookup b k) := by
  induction a with
  | nil => rfl
  | cons p rest ih =>
    obtain ⟨k0, v0⟩ := p
    by_cases h : k0 = k
    · simp [assocLookup, h]
    · simp [assocLookup, h, ih]

theorem rowKeySel_serial_irrel (ws : Worksheet) (row : List CellVal) (er s1 s2 : ℕ)
    (h : ws.needGenerateKeys = false) :
    rowKeySel ws row er s1 = rowKeySel ws row er s2 := by
  simp [rowKeySel, h]

theorem keyAt_eq_rowKeySel (ws : Worksheet) (rows : List (List CellVal)) (p : ℕ) :
    keyAt ws rows p =
      rowKeySel ws (rows.getD p []) (7 + (0 + p)) (0 + serialBefore rows p) := by
  simp [keyAt, rowKeySel]

theorem genRows_fresh (ws : Worksheet) (idFirst : Bool) :
    ∀ (rows : List (List CellVal)) (d serial : ℕ) (used : List (ℤ × ℕ))
      (acc out : List (ℤ × List (PyStr × JVal))),
      genRows ws idFirst rows d serial used acc = .ok out →
      ∀ (p : ℕ) (k : ℤ), p < rows.length → rows.getD p [] ≠ [] →
        rowKeySel ws (rows.getD p []) (7 + (d + p)) (serial + serialBefore rows p) = .ok k →
        assocLookup used k = Option.none := by
  intro rows
  induction rows with
  | nil =>
    intro d serial used acc out _ p k hp _ _
    exact absurd hp (by simp)
  | cons row rest ih =>
    intro d serial used acc out hg p k hp hne hks
    unfold genRows at hg
    by_cases hre : row = []
    · rw [if_pos hre] at hg
      cases p with
      | zero =>
        rw [List.getD_cons_zero] at hne
        exact absurd hre hne
      | succ q =>
        rw [List.getD_cons_succ] at hne hks
        rw [serialBefore_cons_empty row rest q hre] at hks
        rw [show d + (q + 1) = (d + 1) + q from by omega] at hks
        exact ih (d + 1) serial used acc out hg q k (by simpa using hp) hne hks
    · rw [if_neg hre] at hg
      simp only at hg
      cases hks0 : rowKeySel ws row (7 + d) serial with
      | error e =>
        rw [hks0] at hg
        exact Except.noConfusion hg
      | ok k0 =>
        rw [hks0] at hg
        simp only at hg
        cases hlk : assocLookup used k0 with
        | some fr =>
          rw [hlk] at hg
          exact Except.noConfusion hg
        | none =>
          rw [hlk] at hg
          simp only at hg
          cases hbc : buildCols ws (7 + d) 1 row
              (if idFirst then [(pystr "id", JVal.int k0)] else []) with
          | error e =>
            rw [hbc] at hg
            exact Except.noConfusion hg
          | ok obj =>
            rw [hbc] at hg
            simp only at hg
            cases p with
            | zero =>
              have hkk : (Except.ok k0 : Except ExportErr ℤ) = .ok k :=
                hks0.symm.trans hks
              injection hkk with hkk2
              rw [← hkk2]
              exact hlk
            | succ q =>
              rw [List.getD_cons_succ] at hne hks
              rw [serialBefore_cons_nonempty row rest q hre] at hks
              rw [show d + (q + 1) = (d + 1) + q from by omega] at hks
              by_cases hngk : ws.needGenerateKeys = true
              · rw [if_pos hngk] at hg
                rw [show serial + (serialBefore rest q + 1) =
                    (serial + 1) + serialBefore rest q from by omega] at hks
                have hn2 := ih (d + 1) (serial + 1) (used ++ [(k0, 7 + d)]) _ out hg
                  q k (by simpa using hp) hne hks
                cases hu : assocLookup used k with
                | none => rfl
                | some v =>
                  rw [assocLookup_append used [(k0, 7 + d)] k, hu] at hn2
                  exact Option.noConfusion hn2
              · rw [if_neg hngk] at hg
                have hngf : ws.needGenerateKeys = false := by
                  revert hngk
                  cases ws.needGenerateKeys <;> simp
                rw [rowKeySel_serial_irrel ws (rest.getD q []) (7 + ((d + 1) + q))
                    (serial + (serialBefore rest q + 1)) (serial + serialBefore rest q)
                    hngf] at hks
                have hn2 := ih (d + 1) serial (used ++ [(k0, 7 + d)]) _ out hg
                  q k (by simpa using hp) hne hks
                cases hu : assocLookup used k with
                | none => rfl
                | some v =>
                  rw [assocLookup_append used [(k0, 7 + d)] k, hu] at hn2
                  exact Option.noConfusion hn2

theorem genRows_no_dup (ws : Worksheet) (idFirst : Bool) :
    ∀ (rows : List (List CellVal)) (d serial : ℕ) (used : List (ℤ × ℕ))
      (acc out : List (ℤ × List (PyStr × JVal))),
      genRows ws idFirst rows d serial used acc = .ok out →
      ∀ (p q : ℕ) (kp kq : ℤ), p < q → q < rows.length →
        rows.getD p [] ≠ [] → rows.getD q [] ≠ [] →
        rowKeySel ws (rows.getD p []) (7 + (d + p)) (serial + serialBefore rows p) = .ok kp →
        rowKeySel ws (rows.getD q []) (7 + (d + q)) (serial + serialBefore rows q) = .ok kq →
        kp ≠ kq := by
  intro rows
  induction rows with
  | nil =>
    intro d serial used acc out _ p q kp kq _ hq _ _ _ _
    exact absurd hq (by simp)
  | cons row rest ih =>
    intro d serial used acc out hg p q kp kq hpq hq hnep hneq hkp hkq
    unfold genRows at hg
    by_cases hre : row = []
    · rw [if_pos hre] at hg
      cases p with
      | zero =>
        rw [List.getD_cons_zero] at hnep
        exact absurd hre hnep
      | succ p2 =>
        cases q with
        | zero => exact absurd hpq (by omega)
        | succ q2 =>
          rw [List.getD_cons_succ] at hnep hkp hneq hkq
          rw [serialBefore_cons_empty row rest p2 hre] at hkp
          rw [serialBefore_cons_empty row rest q2 hre] at hkq
          rw [show d + (p2 + 1) = (d + 1) + p2 from by omega] at hkp
          rw [show d + (q2 + 1) = (d + 1) + q2 from by omega] at hkq
          exact ih (d + 1) serial used acc out hg p2 q2 kp kq (by omega)
            (by simpa using hq) hnep hneq hkp hkq
    · rw [if_neg hre] at hg
      simp only at hg
      cases hks0 : rowKeySel ws row (7 + d) serial with
      | error e =>
        rw [hks0] at hg
        exact Except.noConfusion hg
      | ok k0 =>
        rw [hks0] at hg
        simp only at hg
        cases hlk : assocLookup used k0 with
        | some fr =>
          rw [hlk] at hg
          exact Except.noConfusion hg
        | none =>
          rw [hlk] at hg
          simp only at hg
          cases hbc : buildCols ws (7 + d) 1 row
              (if idFirst then [(pystr "id", JVal.int k0)] else []) with
          | error e =>
            rw [hbc] at hg
            exact Except.noConfusion hg
          | ok obj =>
            rw [hbc] at hg
            simp only at hg
            cases q with
            | zero => exact absurd hpq (by omega)
            | succ q2 =>
              rw [List.getD_cons_succ] at hneq hkq
              rw [serialBefore_cons_nonempty row rest q2 hre] at hkq
              rw [show d + (q2 + 1) = (d + 1) + q2 from by omega] at hkq
              cases p with
              | zero =>
                have hkk : (Except.ok k0 : Except ExportErr ℤ) = .ok kp :=
                  hks0.symm.trans hkp
                injection hkk with hkk2
                by_cases hngk : ws.needGenerateKeys = true
                · rw [if_pos hngk] at hg
                  rw [show serial + (serialBefore rest q2 + 1) =
                      (serial + 1) + serialBefore rest q2 from by omega] at hkq
                  have hfr := genRows_fresh ws idFirst rest (d + 1) (serial + 1)
                    (used ++ [(k0, 7 + d)]) _ out hg q2 kq (by simpa using hq) hneq hkq
                  rw [assocLookup_append used [(k0, 7 + d)] kq] at hfr
                  intro heq
                  rw [← heq, ← hkk2] at hfr
                  rw [hlk] at hfr
                  simp [assocLookup] at hfr
                · rw [if_neg hngk] at hg
                  have hngf : ws.needGenerateKeys = false := by
                    revert hngk
                    cases ws.needGenerateKeys <;> simp
                  rw [rowKeySel_serial_irrel ws (rest.getD q2 []) (7 + ((d + 1) + q2))
                      (serial + (serialBefore rest q2 + 1)) (serial + serialBefore rest q2)
                      hngf] at hkq
                  have hfr := genRows_fresh ws idFirst rest (d + 1) serial
                    (used ++ [(k0, 7 + d)]) _ out hg q2 kq (by simpa using hq) hneq hkq
                  rw [assocLookup_append used [(k0, 7 + d)] kq] at hfr
                  intro heq
                  rw [← heq, ← hkk2] at hfr
                  rw [hlk] at hfr
                  simp [assocLookup] at hfr
              | succ p2 =>
                rw [List.getD_cons_succ] at hnep hkp
                rw [serialBefore_cons_nonempty row rest p2 hre] at hkp
                rw [show d + (p2 + 1) = (d + 1) + p2 from by omega] at hkp
                by_cases hngk : ws.needGenerateKeys = true
                · rw [if_pos hngk] at hg
                  rw [show serial + (serialBefore rest p2 + 1) =
                      (serial + 1) + serialBefore rest p2 from by omega] at hkp
                  rw [show serial + (serialBefore rest q2 + 1) =
                      (serial + 1) + serialBefore rest q2 from by omega] at hkq
                  exact ih (d + 1) (serial + 1) (used ++ [(k0, 7 + d)]) _ out hg
                    p2 q2 kp kq (by omega) (by simpa using hq) hnep hneq hkp hkq
                · rw [if_neg hngk] at hg
                  have hngf : ws.needGenerateKeys = false := by
                    revert hngk
                    cases ws.needGenerateKeys <;> simp
                  rw [rowKeySel_serial_irrel ws (rest.getD p2 []) (7 + ((d + 1) + p2))
                      (serial + (serialBefore rest p2 + 1)) (serial + serialBefore rest p2)
                      hngf] at hkp
                  rw [rowKeySel_serial_irrel ws (rest.getD q2 []) (7 + ((d + 1) + q2))
                      (serial + (serialBefore rest q2 + 1)) (serial + serialBefore rest q2)
                      hngf] at hkq
                  exact ih (d + 1) serial (used ++ [(k0, 7 + d)]) _ out hg
                    p2 q2 kp kq (by omega) (by simpa using hq) hnep hneq hkp hkq

theorem rowKeySel_shift (ws : Worksheet) (row : List CellVal) (er s sb : ℕ) :
    rowKeySel ws row er ((if ws.needGenerateKeys then s + 1 else s) + sb) =
      rowKeySel ws row er (s + (sb + 1)) := by
  by_cases h : ws.needGenerateKeys = true
  · rw [if_pos h, show s + 1 + sb = s + (sb + 1) from by omega]
  · rw [if_neg h]
    have hngf : ws.needGenerateKeys = false := by
      revert h
      cases ws.needGenerateKeys <;> simp
    exact rowKeySel_serial_irrel ws row er (s + sb) (s + (sb + 1)) hngf

theorem genRows_hit (ws : Worksheet) (idFirst : Bool) :
    ∀ (rows : List (List CellVal)) (d serial : ℕ) (used : List (ℤ × ℕ))
      (acc : List (ℤ × List (PyStr × JVal))) (j : ℕ) (k : ℤ) (fr : ℕ),
      j < rows.length → rows.getD j [] ≠ [] →
      rowKeySel ws (rows.getD j []) (7 + (d + j)) (serial + serialBefore rows j) = .ok k →
      assocLookup used k = some fr →
      (∀ (p : ℕ) (kp : ℤ), p < j → rows.getD p [] ≠ [] →
        rowKeySel ws (rows.getD p []) (7 + (d + p)) (serial + serialBefore rows p) = .ok kp →
        assocLookup used kp = Option.none) →
      (∀ p, p < j → rows.getD p [] ≠ [] →
        ∃ kp, rowKeySel ws (rows.getD p []) (7 + (d + p))
          (serial + serialBefore rows p) = .ok kp) →
      (∀ (p q : ℕ) (kp : ℤ), p < q → q < j → rows.getD p [] ≠ [] → rows.getD q [] ≠ [] →
        rowKeySel ws (rows.getD p []) (7 + (d + p)) (serial + serialBefore rows p) = .ok kp →
        rowKeySel ws (rows.getD q []) (7 + (d + q)) (serial + serialBefore rows q) ≠ .ok kp) →
      (∀ p, p < j → rows.getD p [] ≠ [] →
        ∀ jj, ¬ reqOffendAt ws 1 (rows.getD p []) jj) →
      genRows ws idFirst rows d serial used acc =
        .error (.duplicatePrimaryKey k fr (7 + (d + j))) := by
  intro rows
  induction rows with
  | nil =>
    intro d serial used acc j k fr hj _ _ _ _ _ _ _
    exact absurd hj (by simp)
  | cons row rest ih =>
    intro d serial used acc j k fr hj hnej hkj hulk hfresh hex hdist hreq
    unfold genRows
    by_cases hre : row = []
    · rw [if_pos hre]
      cases j with
      | zero =>
        rw [List.getD_cons_zero] at hnej
        exact absurd hre hnej
      | succ j2 =>
        rw [List.getD_cons_succ] at hnej hkj
        rw [serialBefore_cons_empty row rest j2 hre] at hkj
        rw [show d + (j2 + 1) = (d + 1) + j2 from by omega] at hkj
        rw [show d + (j2 + 1) = (d + 1) + j2 from by omega]
        refine ih (d + 1) serial used acc j2 k fr (by simpa using hj) hnej hkj hulk
          ?_ ?_ ?_ ?_
        · intro p kp hp hne hks2
          refine hfresh (p + 1) kp (by omega) (by rw [List.getD_cons_succ]; exact hne) ?_
          rw [List.getD_cons_succ, serialBefore_cons_empty row rest p hre,
              show d + (p + 1) = (d + 1) + p from by omega]
          exact hks2
        · intro p hp hne
          obtain ⟨kp, hkp⟩ := hex (p + 1) (by omega)
            (by rw [List.getD_cons_succ]; exact hne)
          refine ⟨kp, ?_⟩
          rw [List.getD_cons_succ, serialBefore_cons_empty row rest p hre,
              show d + (p + 1) = (d + 1) + p from by omega] at hkp
          exact hkp
        · intro p q kp hpq hq2 hnp hnq hkp2 hkq2
          have horigp : rowKeySel ws ((row :: rest).getD (p + 1) []) (7 + (d + (p + 1)))
              (serial + serialBefore (row :: rest) (p + 1)) = .ok kp := by
            rw [List.getD_cons_succ, serialBefore_cons_empty row rest p hre,
                show d + (p + 1) = (d + 1) + p from by omega]
            exact hkp2
          have horigq : rowKeySel ws ((row :: rest).getD (q + 1) []) (7 + (d + (q + 1)))
              (serial + serialBefore (row :: rest) (q + 1)) = .ok kp := by
            rw [List.getD_cons_succ, serialBefore_cons_empty row rest q hre,
                show d + (q + 1) = (d + 1) + q from by omega]
            exact hkq2
          exact hdist (p + 1) (q + 1) kp (by omega) (by omega)
            (by rw [List.getD_cons_succ]; exact hnp)
            (by rw [List.getD_cons_succ]; exact hnq) horigp horigq
        · intro p hp hne jj
          exact hreq (p + 1) (by omega) (by rw [List.getD_cons_succ]; exact hne) jj
    · rw [if_neg hre]
      simp only
      cases j with
      | zero =>
        simp only [List.getD_cons_zero, serialBefore_zero, Nat.add_zero] at hkj
        rw [hkj]
        simp only
        rw [hulk]
        rfl
      | succ j2 =>
        obtain ⟨k0, hk0⟩ := hex 0 (by omega) (by rw [List.getD_cons_zero]; exact hre)
        simp only [List.getD_cons_zero, serialBefore_zero, Nat.add_zero] at hk0
        have hlk0 : assocLookup used k0 = Option.none :=
          hfresh 0 k0 (by omega) (by rw [List.getD_cons_zero]; exact hre) hk0
        obtain ⟨obj, hbc⟩ := buildCols_ok_of_no_offend ws (7 + d) row 1
          (if idFirst then [(pystr "id", JVal.int k0)] else [])
          (fun jj => hreq 0 (by omega) (by rw [List.getD_cons_zero]; exact hre) jj)
        rw [hk0]
        simp only
        rw [hlk0]
        simp only
        rw [hbc]
        simp only
        rw [List.getD_cons_succ] at hnej hkj
        rw [serialBefore_cons_nonempty row rest j2 hre] at hkj
        rw [show d + (j2 + 1) = (d + 1) + j2 from by omega] at hkj
        rw [← rowKeySel_shift ws (rest.getD j2 []) (7 + ((d + 1) + j2)) serial
            (serialBefore rest j2)] at hkj
        rw [show d + (j2 + 1) = (d + 1) + j2 from by omega]
        refine ih (d + 1) (if ws.needGenerateKeys then serial + 1 else serial)
          (used ++ [(k0, 7 + d)]) _ j2 k fr (by simpa using hj) hnej hkj
          (by rw [assocLookup_append used [(k0, 7 + d)] k, hulk]) ?_ ?_ ?_ ?_
        · intro p kp hp hne hks2
          have horig : rowKeySel ws ((row :: rest).getD (p + 1) []) (7 + (d + (p + 1)))
              (serial + serialBefore (row :: rest) (p + 1)) = .ok kp := by
            rw [List.getD_cons_succ, serialBefore_cons_nonempty row rest p hre,
                show d + (p + 1) = (d + 1) + p from by omega,
                ← rowKeySel_shift ws (rest.getD p []) (7 + ((d + 1) + p)) serial
                  (serialBefore rest p)]
            exact hks2
          have h1 : assocLookup used kp = Option.none :=
            hfresh (p + 1) kp (by omega) (by rw [List.getD_cons_succ]; exact hne) horig
          have h2 : ¬ k0 = kp := by
            intro he
            exact hdist 0 (p + 1) k0 (by omega) (by omega)
              (by rw [List.getD_cons_zero]; exact hre)
              (by rw [List.getD_cons_succ]; exact hne) hk0
              (by rw [← he] at horig; exact horig)
          rw [assocLookup_append used [(k0, 7 + d)] kp, h1]
          simp [assocLookup, h2]
        · intro p hp hne
          obtain ⟨kp, hkp⟩ := hex (p + 1) (by omega)
            (by rw [List.getD_cons_succ]; exact hne)
          refine ⟨kp, ?_⟩
          rw [List.getD_cons_succ, serialBefore_cons_nonempty row rest p hre,
              show d + (p + 1) = (d + 1) + p from by omega,
              ← rowKeySel_shift ws (rest.getD p []) (7 + ((d + 1) + p)) serial
                (serialBefore rest p)] at hkp
          exact hkp
        · intro p q kp hpq hq2 hnp hnq hkp2 hkq2
          have horigp : rowKeySel ws ((row :: rest).getD (p + 1) []) (7 + (d + (p + 1)))
              (serial + serialBefore (row :: rest) (p + 1)) = .ok kp := by
            rw [List.getD_cons_succ, serialBefore_cons_nonempty row rest p hre,
                show d + (p + 1) = (d + 1) + p from by omega,
                ← rowKeySel_shift ws (rest.getD p []) (7 + ((d + 1) + p)) serial
                  (serialBefore rest p)]
            exact hkp2
          have horigq : rowKeySel ws ((row :: rest).getD (q + 1) []) (7 + (d + (q + 1)))
              (serial + serialBefore (row :: rest) (q + 1)) = .ok kp := by
            rw [List.getD_cons_succ, serialBefore_cons_nonempty row rest q hre,
                show d + (q + 1) = (d + 1) + q from by omega,
                ← rowKeySel_shift ws (rest.getD q []) (7 + ((d + 1) + q)) serial
                  (serialBefore rest q)]
            exact hkq2
          exact hdist (p + 1) (q + 1) kp (by omega) (by omega)
            (by rw [List.getD_cons_succ]; exact hnp)
            (by rw [List.getD_cons_succ]; exact hnq) horigp horigq
        · intro p hp hne jj
          exact hreq (p + 1) (by omega) (by rw [List.getD_cons_succ]; exact hne) jj

theorem genRows_dup_err (ws : Worksheet) (idFirst : Bool) :
    ∀ (rows : List (List CellVal)) (d serial : ℕ) (used : List (ℤ × ℕ))
      (acc : List (ℤ × List (PyStr × JVal))) (i j : ℕ) (k : ℤ),
      i < j → j < rows.length →
      rows.getD i [] ≠ [] → rows.getD j [] ≠ [] →
      rowKeySel ws (rows.getD i []) (7 + (d + i)) (serial + serialBefore rows i) = .ok k →
      rowKeySel ws (rows.getD j []) (7 + (d + j)) (serial + serialBefore rows j) = .ok k →
      (∀ (p : ℕ) (kp : ℤ), p < j → rows.getD p [] ≠ [] →
        rowKeySel ws (rows.getD p []) (7 + (d + p)) (serial + serialBefore rows p) = .ok kp →
        assocLookup used kp = Option.none) →
      (∀ p, p < j → rows.getD p [] ≠ [] →
        ∃ kp, rowKeySel ws (rows.getD p []) (7 + (d + p))
          (serial + serialBefore rows p) = .ok kp) →
      (∀ (p q : ℕ) (kp : ℤ), p < q → q < j → rows.getD p [] ≠ [] → rows.getD q [] ≠ [] →
        rowKeySel ws (rows.getD p []) (7 + (d + p)) (serial + serialBefore rows p) = .ok kp →
        rowKeySel ws (rows.getD q []) (7 + (d + q)) (serial + serialBefore rows q) ≠ .ok kp) →
      (∀ p, p < j → rows.getD p [] ≠ [] →
        ∀ jj, ¬ reqOffendAt ws 1 (rows.getD p []) jj) →
      genRows ws idFirst rows d serial used acc =
        .error (.duplicatePrimaryKey k (7 + (d + i)) (7 + (d + j))) := by
  intro rows
  induction rows with
  | nil =>
    intro d serial used acc i j k _ hj _ _ _ _ _ _ _ _
    exact absurd hj (by simp)
  | cons row rest ih =>
    intro d serial used acc i j k hij hj hnei hnej hki hkj hfresh hex hdist hreq
    unfold genRows
    by_cases hre : row = []
    · rw [if_pos hre]
      cases i with
      | zero =>
        rw [List.getD_cons_zero] at hnei
        exact absurd hre hnei
      | succ i2 =>
        cases j with
        | zero => exact absurd hij (by omega)
        | succ j2 =>
          rw [List.getD_cons_succ] at hnei hnej hki hkj
          rw [serialBefore_cons_empty row rest i2 hre] at hki
          rw [serialBefore_cons_empty row rest j2 hre] at hkj
          rw [show d + (i2 + 1) = (d + 1) + i2 from by omega] at hki
          rw [show d + (j2 + 1) = (d + 1) + j2 from by omega] at hkj
          rw [show d + (i2 + 1) = (d + 1) + i2 from by omega,
              show d + (j2 + 1) = (d + 1) + j2 from by omega]
          refine ih (d + 1) serial used acc i2 j2 k (by omega) (by simpa using hj)
            hnei hnej hki hkj ?_ ?_ ?_ ?_
          · intro p kp hp hne hks2
            refine hfresh (p + 1) kp (by omega) (by rw [List.getD_cons_succ]; exact hne) ?_
            rw [List.getD_cons_succ, serialBefore_cons_empty row rest p hre,
                show d + (p + 1) = (d + 1) + p from by omega]
            exact hks2
          · intro p hp hne
            obtain ⟨kp, hkp⟩ := hex (p + 1) (by omega)
              (by rw [List.getD_cons_succ]; exact hne)
            refine ⟨kp, ?_⟩
            rw [List.getD_cons_succ, serialBefore_cons_empty row rest p hre,
                show d + (p + 1) = (d + 1) + p from by omega] at hkp
            exact hkp
          · intro p q kp hpq hq2 hnp hnq hkp2 hkq2
            have horigp : rowKeySel ws ((row :: rest).getD (p + 1) []) (7 + (d + (p + 1)))
                (serial + serialBefore (row :: rest) (p + 1)) = .ok kp := by
              rw [List.getD_cons_succ, serialBefore_cons_empty row rest p hre,
                  show d + (p + 1) = (d + 1) + p from by omega]
              exact hkp2
            have horigq : rowKeySel ws ((row :: rest).getD (q + 1) []) (7 + (d + (q + 1)))
                (serial + serialBefore (row :: rest) (q + 1)) = .ok kp := by
              rw [List.getD_cons_succ, serialBefore_cons_empty row rest q hre,
                  show d + (q + 1) = (d + 1) + q from by omega]
              exact hkq2
            exact hdist (p + 1) (q + 1) kp (by omega) (by omega)
              (by rw [List.getD_cons_succ]; exact hnp)
              (by rw [List.getD_cons_succ]; exact hnq) horigp horigq
          · intro p hp hne jj
            exact hreq (p + 1) (by omega) (by rw [List.getD_cons_succ]; exact hne) jj
    · rw [if_neg hre]
      simp only
      cases j with
      | zero => exact absurd hij (by omega)
      | succ j2 =>
        rw [List.getD_cons_succ] at hnej hkj
        rw [serialBefore_cons_nonempty row rest j2 hre] at hkj
        rw [show d + (j2 + 1) = (d + 1) + j2 from by omega] at hkj
        rw [← rowKeySel_shift ws (rest.getD j2 []) (7 + ((d + 1) + j2)) serial
            (serialBefore rest j2)] at hkj
        cases i with
        | zero =>
          simp only [List.getD_cons_zero, serialBefore_zero, Nat.add_zero] at hki
          have hlk0 : assocLookup used k = Option.none :=
            hfresh 0 k (by omega) (by rw [List.getD_cons_zero]; exact hre) hki
          obtain ⟨obj, hbc⟩ := buildCols_ok_of_no_offend ws (7 + d) row 1
            (if idFirst then [(pystr "id", JVal.int k)] else [])
            (fun jj => hreq 0 (by omega) (by rw [List.getD_cons_zero]; exact hre) jj)
          rw [hki]
          simp only
          rw [hlk0]
          simp only
          rw [hbc]
          simp only
          rw [show d + (j2 + 1) = (d + 1) + j2 from by omega]
          refine genRows_hit ws idFirst rest (d + 1)
            (if ws.needGenerateKeys then serial + 1 else serial)
            (used ++ [(k, 7 + d)]) _ j2 k (7 + d) (by simpa using hj) hnej hkj
            (by rw [assocLookup_append used [(k, 7 + d)] k, hlk0]; simp [assocLookup])
            ?_ ?_ ?_ ?_
          · intro p kp hp hne hks2
            have horig : rowKeySel ws ((row :: rest).getD (p + 1) []) (7 + (d + (p + 1)))
                (serial + serialBefore (row :: rest) (p + 1)) = .ok kp := by
              rw [List.getD_cons_succ, serialBefore_cons_nonempty row rest p hre,
                  show d + (p + 1) = (d + 1) + p from by omega,
                  ← rowKeySel_shift ws (rest.getD p []) (7 + ((d + 1) + p)) serial
                    (serialBefore rest p)]
              exact hks2
            have h1 : assocLookup used kp = Option.none :=
              hfresh (p + 1) kp (by omega) (by rw [List.getD_cons_succ]; exact hne) horig
            have h2 : ¬ k = kp := by
              intro he
              exact hdist 0 (p + 1) k (by omega) (by omega)
                (by rw [List.getD_cons_zero]; exact hre)
                (by rw [List.getD_cons_succ]; exact hne) hki
                (by rw [← he] at horig; exact horig)
            rw [assocLookup_append used [(k, 7 + d)] kp, h1]
            simp [assocLookup, h2]
          · intro p hp hne
            obtain ⟨kp, hkp⟩ := hex (p + 1) (by omega)
              (by rw [List.getD_cons_succ]; exact hne)
            refine ⟨kp, ?_⟩
            rw [List.getD_cons_succ, serialBefore_cons_nonempty row rest p hre,
                show d + (p + 1) = (d + 1) + p from by omega,
                ← rowKeySel_shift ws (rest.getD p []) (7 + ((d + 1) + p)) serial
                  (serialBefore rest p)] at hkp
            exact hkp
          · intro p q kp hpq hq2 hnp hnq hkp2 hkq2
            have horigp : rowKeySel ws ((row :: rest).getD (p + 1) []) (7 + (d + (p + 1)))
                (serial + serialBefore (row :: rest) (p + 1)) = .ok kp := by
              rw [List.getD_cons_succ, serialBefore_cons_nonempty row rest p hre,
                  show d + (p + 1) = (d + 1) + p from by omega,
                  ← rowKeySel_shift ws (rest.getD p []) (7 + ((d + 1) + p)) serial
                    (serialBefore rest p)]
              exact hkp2
            have horigq : rowKeySel ws ((row :: rest).getD (q + 1) []) (7 + (d + (q + 1)))
                (serial + serialBefore (row :: rest) (q + 1)) = .ok kp := by
              rw [List.getD_cons_succ, serialBefore_cons_nonempty row rest q hre,
                  show d + (q + 1) = (d + 1) + q from by omega,
                  ← rowKeySel_shift ws (rest.getD q []) (7 + ((d + 1) + q)) serial
                    (serialBefore rest q)]
              exact hkq2
            exact hdist (p + 1) (q + 1) kp (by omega) (by omega)
              (by rw [List.getD_cons_succ]; exact hnp)
              (by rw [List.getD_cons_succ]; exact hnq) horigp horigq
          · intro p hp hne jj
            exact hreq (p + 1) (by omega) (by rw [List.getD_cons_succ]; exact hne) jj
        | succ i2 =>
          rw [List.getD_cons_succ] at hnei hki
          rw [serialBefore_cons_nonempty row rest i2 hre] at hki
          rw [show d + (i2 + 1) = (d + 1) + i2 from by omega] at hki
          rw [← rowKeySel_shift ws (rest.getD i2 []) (7 + ((d + 1) + i2)) serial
              (serialBefore rest i2)] at hki
          obtain ⟨k0, hk0⟩ := hex 0 (by omega) (by rw [List.getD_cons_zero]; exact hre)
          simp only [List.getD_cons_zero, serialBefore_zero, Nat.add_zero] at hk0
          have hlk0 : assocLookup used k0 = Option.none :=
            hfresh 0 k0 (by omega) (by rw [List.getD_cons_zero]; exact hre) hk0
          obtain ⟨obj, hbc⟩ := buildCols_ok_of_no_offend ws (7 + d) row 1
            (if idFirst then [(pystr "id", JVal.int k0)] else [])
            (fun jj => hreq 0 (by omega) (by rw [List.getD_cons_zero]; exact hre) jj)
          rw [hk0]
          simp only
          rw [hlk0]
          simp only
          rw [hbc]
          simp only
          rw [show d + (i2 + 1) = (d + 1) + i2 from by omega,
              show d + (j2 + 1) = (d + 1) + j2 from by omega]
          refine ih (d + 1) (if ws.needGenerateKeys then serial + 1 else serial)
            (used ++ [(k0, 7 + d)]) _ i2 j2 k (by omega) (by simpa using hj)
            hnei hnej hki hkj ?_ ?_ ?_ ?_
          · intro p kp hp hne hks2
            have horig : rowKeySel ws ((row :: rest).getD (p + 1) []) (7 + (d + (p + 1)))
                (serial + serialBefore (row :: rest) (p + 1)) = .ok kp := by
              rw [List.getD_cons_succ, serialBefore_cons_nonempty row rest p hre,
                  show d + (p + 1) = (d + 1) + p from by omega,
                  ← rowKeySel_shift ws (rest.getD p []) (7 + ((d + 1) + p)) serial
                    (serialBefore rest p)]
              exact hks2
            have h1 : assocLookup used kp = Option.none :=
              hfresh (p + 1) kp (by omega) (by rw [List.getD_cons_succ]; exact hne) horig
            have h2 : ¬ k0 = kp := by
              intro he
              exact hdist 0 (p + 1) k0 (by omega) (by omega)
                (by rw [List.getD_cons_zero]; exact hre)
                (by rw [List.getD_cons_succ]; exact hne) hk0
                (by rw [← he] at horig; exact horig)
            rw [assocLookup_append used [(k0, 7 + d)] kp, h1]
            simp [assocLookup, h2]
          · intro p hp hne
            obtain ⟨kp, hkp⟩ := hex (p + 1) (by omega)
              (by rw [List.getD_cons_succ]; exact hne)
            refine ⟨kp, ?_⟩
            rw [List.getD_cons_succ, serialBefore_cons_nonempty row rest p hre,
                show d + (p + 1) = (d + 1) + p from by omega,
                ← rowKeySel_shift ws (rest.getD p []) (7 + ((d + 1) + p)) serial
                  (serialBefore rest p)] at hkp
            exact hkp
          · intro p q kp hpq hq2 hnp hnq hkp2 hkq2
            have horigp : rowKeySel ws ((row :: rest).getD (p + 1) []) (7 + (d + (p + 1)))
                (serial + serialBefore (row :: rest) (p + 1)) = .ok kp := by
              rw [List.getD_cons_succ, serialBefore_cons_nonempty row rest p hre,
                  show d + (p + 1) = (d + 1) + p from by omega,
                  ← rowKeySel_shift ws (rest.getD p []) (7 + ((d + 1) + p)) serial
                    (serialBefore rest p)]
              exact hkp2
            have horigq : rowKeySel ws ((row :: rest).getD (q + 1) []) (7 + (d + (q + 1)))
                (serial + serialBefore (row :: rest) (q + 1)) = .ok kp := by
              rw [List.getD_cons_succ, serialBefore_cons_nonempty row rest q hre,
                  show d + (q + 1) = (d + 1) + q from by omega,
                  ← rowKeySel_shift ws (rest.getD q []) (7 + ((d + 1) + q)) serial
                    (serialBefore rest q)]
              exact hkq2
            exact hdist (p + 1) (q + 1) kp (by omega) (by omega)
              (by rw [List.getD_cons_succ]; exact hnp)
              (by rw [List.getD_cons_succ]; exact hnq) horigp horigq
          · intro p hp hne jj
            exact hreq (p + 1) (by omega) (by rw [List.getD_cons_succ]; exact hne) jj

/-- C4: derived primary keys are unique in every successfully built table
(two distinct non-empty rows can never derive the same key, under any key
policy and either id placement); and when rows i and j are the first pair
deriving the same key — every earlier non-empty row's key derives, all
earlier pairs are distinct, and no earlier row trips the required-field
failure — record building fails with DuplicatePrimaryKeyError carrying the
duplicated key, the Excel row 7 + i of the first occurrence and the Excel
row 7 + j of the second. -/
theorem C4_duplicate_primary_key :
    (∀ (ws : Worksheet) (idFirst : Bool) (out : List (ℤ × List (PyStr × JVal))),
      generateJson ws idFirst = .ok out →
      ∀ (p q : ℕ) (kp kq : ℤ), p < q → q < ws.rowData.length →
        ws.rowData.getD p [] ≠ [] → ws.rowData.getD q [] ≠ [] →
        keyAt ws ws.rowData p = .ok kp → keyAt ws ws.rowData q = .ok kq → kp ≠ kq) ∧
    (∀ (ws : Worksheet) (idFirst : Bool) (i j : ℕ) (k : ℤ),
      i < j → j < ws.rowData.length →
      ws.rowData.getD i [] ≠ [] → ws.rowData.getD j [] ≠ [] →
      keyAt ws ws.rowData i = .ok k → keyAt ws ws.rowData j = .ok k →
      (∀ (p q : ℕ) (kp : ℤ), p < q → q < j →
        ws.rowData.getD p [] ≠ [] → ws.rowData.getD q [] ≠ [] →
        keyAt ws ws.rowData p = .ok kp → keyAt ws ws.rowData q ≠ .ok kp) →
      (∀ p, p < j → ws.rowData.getD p [] ≠ [] →
        ∃ kp, keyAt ws ws.rowData p = .ok kp) →
      (∀ p, p < j → ws.rowData.getD p [] ≠ [] →
        ∀ jj, ¬ reqOffendAt ws 1 (ws.rowData.getD p []) jj) →
      generateJson ws idFirst = .error (.duplicatePrimaryKey k (7 + i) (7 + j))) := by
  constructor
  · intro ws idFirst out hg p q kp kq hpq hq hnp hnq hkp hkq
    rw [keyAt_eq_rowKeySel] at hkp hkq
    exact genRows_no_dup ws idFirst ws.rowData 0 0 [] [] out hg p q kp kq
      hpq hq hnp hnq hkp hkq
  · intro ws idFirst i j k hij hj hni hnj hki hkj hdist hex hreq
    rw [keyAt_eq_rowKeySel] at hki hkj
    have h := genRows_dup_err ws idFirst ws.rowData 0 0 [] [] i j k hij hj hni hnj hki hkj
      (fun p kp _ _ _ => rfl)
      (fun p hp hne => by
        obtain ⟨kp, hkp⟩ := hex p hp hne
        rw [keyAt_eq_rowKeySel] at hkp
        exact ⟨kp, hkp⟩)
      (fun p q kp hpq hq2 hnp hnq hkp2 hkq2 =>
        hdist p q kp hpq hq2 hnp hnq
          (by rw [keyAt_eq_rowKeySel]; exact hkp2)
          (by rw [keyAt_eq_rowKeySel]; exact hkq2))
      hreq
    simp only [Nat.zero_add] at h
    exact h

/-- Witness for C4: two rows that both derive single-int key 1 make record
building fail with the duplicate error naming key 1 and Excel rows 7 and 8. -/
theorem C4_witness :
    generateJson ws4w true = .error (.duplicatePrimaryKey 1 7 8) :=
  C4_duplicate_primary_key.2 ws4w true 0 1 1 (by decide) (by decide)
    (by decide) (by decide) (by rfl) (by rfl)
    (fun p q kp hpq hq2 _ _ _ => absurd hpq (by omega))
    (by
      intro p hp hne
      have hp0 : p = 0 := by omega
      subst hp0
      exact ⟨1, by rfl⟩)
    (by
      intro p hp hne jj hoff
      have hp0 : p = 0 := by omega
      subst hp0
      obtain ⟨h1, h2, h3, h4⟩ := hoff
      have hlen : ws4w.fieldNames.length = 2 := rfl
      have hjj : jj = 0 := by omega
      subst hjj
      exact absurd h3 (by decide))

end Excel2Json
